import Mathlib

set_option maxHeartbeats 1000000

namespace Sudoku

/-- Modelled from the spec: the repository's `cell.h` is not under `src/`; a cell
is either Filled with one digit or Empty with a list of remaining candidate
digits (kept in ascending order, created as 1..NCOUNT). -/
inductive Cell where
  | filled (d : Nat)
  | empty (cands : List Nat)
deriving DecidableEq

/-- Modelled from the spec: `isEmpty()` tells whether the cell is undetermined. -/
def Cell.isEmpty : Cell → Bool
  | .filled _ => false
  | .empty _ => true

/-- Modelled from the spec: `number()` returns the assigned digit of a Filled
cell; on an Empty cell it reads as 0 (the input marker for an empty cell). -/
def Cell.number : Cell → Nat
  | .filled d => d
  | .empty _ => 0

/-- Modelled from the spec: `possibilities()` returns the current candidate
list of an Empty cell. -/
def Cell.possibilities : Cell → List Nat
  | .filled _ => []
  | .empty cs => cs

/-- Modelled from the spec: `disable(n)` (the `eliminate` operation) removes a
digit from the candidate set; it is a no-op on a Filled cell. -/
def Cell.disable (c : Cell) (n : Nat) : Cell :=
  match c with
  | .filled d => .filled d
  | .empty cs => .empty (cs.filter (fun m => m != n))

/-- Modelled from the spec: `isPossible(n)` tells whether digit `n` is still a
candidate of an Empty cell. -/
def Cell.isPossible (c : Cell) (n : Nat) : Bool :=
  match c with
  | .filled _ => false
  | .empty cs => cs.contains n

/-- Modelled from the spec: `isOnlyOne()` is true iff the cell is Empty with
exactly one candidate left (a naked single). -/
def Cell.isOnlyOne : Cell → Bool
  | .filled _ => false
  | .empty cs => cs.length == 1

/-- Modelled from the spec: `isInconsistent()` (the spec's `isContradictory`)
is true iff the cell is Empty with an empty candidate set. -/
def Cell.isInconsistent : Cell → Bool
  | .filled _ => false
  | .empty cs => cs.isEmpty

/-- Modelled from the spec: `setNumber(n)` (the `assign` operation) turns the
cell into a Filled cell carrying digit `n`. -/
def Cell.setNumber (_ : Cell) (n : Nat) : Cell := .filled n

/-- NCOUNT = SIZE * SIZE, the side length of the grid. -/
def NCOUNT (S : Nat) : Nat := S * S

/-- Read a cell of the grid, `m_cells[i]`; out of range reads a dummy. -/
def gget (g : List Cell) (i : Nat) : Cell := g.getD i (Cell.filled 0)

/-- `col(i) = i % NCOUNT` from the source. -/
def colOf (S i : Nat) : Nat := i % NCOUNT S

/-- `row(i) = i / NCOUNT` from the source. -/
def rowOf (S i : Nat) : Nat := i / NCOUNT S

/-- `box(i) = (i / NCOUNT) / SIZE * SIZE + (i % NCOUNT) / SIZE` from the source. -/
def boxOf (S i : Nat) : Nat := i / NCOUNT S / S * S + i % NCOUNT S / S

/-- Row neighbor table: `initNeighbors<ROW>`, `result[i1][i2] = i1*NCOUNT+i2`. -/
def rowNb (S r : Nat) : List Nat :=
  (List.range (NCOUNT S)).map (fun k => r * NCOUNT S + k)

/-- Column neighbor table: `initNeighbors<COL>`, `result[i1][i2] = i2*NCOUNT+i1`. -/
def colNb (S c : Nat) : List Nat :=
  (List.range (NCOUNT S)).map (fun k => k * NCOUNT S + c)

/-- Box neighbor table: `initNeighbors<BOX>`,
`result[i1][i2] = boxFirst + i2/SIZE*NCOUNT + i2%SIZE` with
`boxFirst = i1/SIZE*SIZE*NCOUNT + i1%SIZE*SIZE`. -/
def boxNb (S b : Nat) : List Nat :=
  (List.range (NCOUNT S)).map
    (fun k => b / S * S * NCOUNT S + b % S * S + k / S * NCOUNT S + k % S)

/-- Apply `disable(n)` to every cell whose index is in `idxs` (one loop of
`updatePossibilities`). -/
def disableAll (g : List Cell) (n : Nat) (idxs : List Nat) : List Cell :=
  idxs.foldl (fun h j => h.set j ((gget h j).disable n)) g

/-- `Solver::updatePossibilities(index)`: eliminate `m_cells[index].number()`
from every cell of the row, column and box neighbor lists of `index`. -/
def updatePossibilities (S : Nat) (g : List Cell) (i : Nat) : List Cell :=
  let n := (gget g i).number
  disableAll (disableAll (disableAll g n (rowNb S (rowOf S i))) n (colNb S (colOf S i)))
    n (boxNb S (boxOf S i))

/-- The lambda `fn_check` in `Solver::restrict`: true iff no OTHER empty cell
among the neighbor list still lists `number` as a candidate. -/
def fnCheck (g : List Cell) (number ind : Nat) (nbs : List Nat) : Bool :=
  !(nbs.any fun nbi => nbi != ind && (gget g nbi).isEmpty && (gget g nbi).isPossible number)

/-- The assignment condition of `Solver::restrict` for one candidate digit:
naked single (`isOnlyOne`) or hidden single in row, column or box. -/
def restrictCond (S : Nat) (g : List Cell) (i : Nat) (cell : Cell) (number : Nat) : Bool :=
  cell.isOnlyOne
    || fnCheck g number i (rowNb S (rowOf S i))
    || fnCheck g number i (colNb S (colOf S i))
    || fnCheck g number i (boxNb S (boxOf S i))

/-- The loop of `Solver::restrict` over the remaining cell indices: on each
Empty cell, the first candidate satisfying `restrictCond` (if any) is assigned
with `setNumber`, `updatePossibilities` runs immediately, and the sweep
continues with `result = true`. -/
def restrictGo (S : Nat) : List Nat → List Cell → Bool → Bool × List Cell
  | [], g, res => (res, g)
  | i :: rest, g, res =>
    let cell := gget g i
    if cell.isEmpty then
      match cell.possibilities.find? (restrictCond S g i cell) with
      | some number =>
          restrictGo S rest (updatePossibilities S (g.set i (cell.setNumber number)) i) true
      | none => restrictGo S rest g res
    else restrictGo S rest g res

/-- `Solver::restrict()`: one full sweep over all cells, returning whether any
assignment was made, together with the updated grid. -/
def restrict (S : Nat) (g : List Cell) : Bool × List Cell :=
  restrictGo S (List.range (NCOUNT S * NCOUNT S)) g false

/-- `Solver::isFilled()`: no cell is Empty. -/
def isFilled (g : List Cell) : Bool := g.all (fun c => !c.isEmpty)

/-- `Solver::isSolvable()`: no cell is inconsistent (Empty with no candidate). -/
def isSolvable (g : List Cell) : Bool := g.all (fun c => !c.isInconsistent)

/-- The grid after the speculative assignment of `assumeNumber`: set cell `i`
to `n` and propagate the elimination. -/
def branchGrid (S : Nat) (g : List Cell) (i n : Nat) : List Cell :=
  updatePossibilities S (g.set i ((gget g i).setNumber n)) i

/-- The candidate loop of `Solver::assumeNumber()`, parameterized by the
recursive `solve` procedure `slv`: for each candidate take the snapshot `g`,
assign and propagate, recurse into `slv`; on failure restore the snapshot
(continue from `g`), on success keep the state; `none` propagates exhausted
fuel. -/
def tryCandsGo (S : Nat) (slv : List Cell → Option (Bool × List Cell))
    (g : List Cell) (i : Nat) : List Nat → Option (Bool × List Cell)
  | [] => some (false, g)
  | n :: rest =>
    match slv (branchGrid S g i n) with
    | none => none
    | some (true, g2) => some (true, g2)
    | some (false, _) => tryCandsGo S slv g i rest

/-- The body of `Solver::assumeNumber()`, parameterized by the recursive
`solve` procedure: find the first Empty cell and try its candidates in order.
If no Empty cell exists (unreachable from `solve`) the C++ behavior is
undefined; we return failure. -/
def assumeGo (S : Nat) (slv : List Cell → Option (Bool × List Cell))
    (g : List Cell) : Option (Bool × List Cell) :=
  match List.findIdx? Cell.isEmpty g with
  | none => some (false, g)
  | some i => tryCandsGo S slv g i (gget g i).possibilities

/-- `Solver::solve()`, with an explicit fuel making the mutual recursion with
`assumeNumber` structurally well-founded; `none` means the fuel ran out. One
unit of fuel is spent per loop iteration and per delegation to the search. -/
def solveFuel (S : Nat) : Nat → List Cell → Option (Bool × List Cell)
  | 0, _ => none
  | f + 1, g =>
    if isFilled g || !isSolvable g then some (isSolvable g, g)
    else
      match restrict S g with
      | (true, g1) => solveFuel S f g1
      | (false, g1) => assumeGo S (solveFuel S f) g1

/-- `Solver::assumeNumber()` with fuel for the recursive calls to `solve`. -/
def assumeFuel (S : Nat) : Nat → List Cell → Option (Bool × List Cell)
  | 0, _ => none
  | f + 1, g => assumeGo S (solveFuel S f) g

/-- The candidate loop of `Solver::assumeNumber()` with fuel for the recursive
calls to `solve`. -/
def tryCands (S f : Nat) (g : List Cell) (i : Nat) (cs : List Nat) :
    Option (Bool × List Cell) :=
  tryCandsGo S (solveFuel S f) g i cs

/-- The number of Empty cells of the grid. -/
def emptyCount (g : List Cell) : Nat := g.countP Cell.isEmpty

/-- `Solver::solve()` itself: run `solveFuel` with enough fuel (proved
sufficient below) to cover the whole search. -/
def solve (S : Nat) (g : List Cell) : Bool × List Cell :=
  (solveFuel S (emptyCount g + 1) g).getD (false, g)

/-- Insertion into the `unordered_set` of `fn_testUnique` succeeds for every
element iff the list has no duplicates. -/
def allDistinct : List Nat → Bool
  | [] => true
  | x :: xs => !(xs.contains x) && allDistinct xs

/-- The lambda `fn_testUnique` of `Solver::isCorrect`: all `number()` values of
the cells of one neighbor list insert freshly (are pairwise distinct). -/
def testUnique (g : List Cell) (nbs : List Nat) : Bool :=
  allDistinct (nbs.map fun nbi => (gget g nbi).number)

/-- `Solver::isCorrect()`: `fn_testUnique` holds on the row, column and box
neighbor list of every group index. -/
def isCorrect (S : Nat) (g : List Cell) : Bool :=
  (List.range (NCOUNT S)).all fun index =>
    testUnique g (rowNb S index) && testUnique g (colNb S index)
      && testUnique g (boxNb S index)

/-- Modelled from the spec: input cells — `cell.h`'s stream reader is not under
`src/` — start Filled with a given digit, or Empty carrying the full candidate
set 1..NCOUNT when the token is the empty marker 0. -/
def initialCell (S : Nat) (tok : Nat) : Cell :=
  if tok = 0 then .empty (List.range' 1 (NCOUNT S)) else .filled tok

/-- `Solver::read` after the token loop: build the initial cells, then call
`updatePossibilities(i)` on every index whose cell is not Empty. -/
def readGrid (S : Nat) (toks : List Nat) : List Cell :=
  (List.range (NCOUNT S * NCOUNT S)).foldl
    (fun g i => if (gget g i).isEmpty then g else updatePossibilities S g i)
    (toks.map (initialCell S))

/-- All row, column and box neighbor lists of the grid. -/
def groupList (S : Nat) : List (List Nat) :=
  ((List.range (NCOUNT S)).map (rowNb S)) ++ ((List.range (NCOUNT S)).map (colNb S))
    ++ ((List.range (NCOUNT S)).map (boxNb S))

/-- The three neighbor lists of a cell index. -/
def groupsOf (S i : Nat) : List (List Nat) :=
  [rowNb S (rowOf S i), colNb S (colOf S i), boxNb S (boxOf S i)]

/-- Index lies on the grid. -/
def inRange (S i : Nat) : Prop := i < NCOUNT S * NCOUNT S

instance (S i : Nat) : Decidable (inRange S i) := by
  unfold inRange; infer_instance

/-- Two cell indices share a row, column or box group. -/
def sameGroup (S i j : Nat) : Prop := ∃ G ∈ groupsOf S i, j ∈ G

instance (S i j : Nat) : Decidable (sameGroup S i j) := by
  unfold sameGroup; infer_instance

/-- A sudoku solution as the flat list of its digits: the right length, and in
every row, column and box group the digits are pairwise distinct and in
1..NCOUNT. -/
def validSol (S : Nat) (sol : List Nat) : Prop :=
  sol.length = NCOUNT S * NCOUNT S ∧
    ∀ G ∈ groupList S, (G.map fun j => sol.getD j 0).Nodup ∧
      ∀ j ∈ G, 1 ≤ sol.getD j 0 ∧ sol.getD j 0 ≤ NCOUNT S

instance (S : Nat) (sol : List Nat) : Decidable (validSol S sol) := by
  unfold validSol; infer_instance

/-- One cell is compatible with a solution digit: a Filled cell carries it, an
Empty cell still lists it as a candidate. -/
def cellAgrees (c : Cell) (v : Nat) : Prop :=
  match c with
  | .filled d => v = d
  | .empty cs => v ∈ cs

instance (c : Cell) (v : Nat) : Decidable (cellAgrees c v) := by
  unfold cellAgrees
  match c with
  | .filled d => infer_instance
  | .empty cs => infer_instance

/-- The grid is compatible with the solution everywhere: the solution is a
legal completion of the grid's Filled cells that propagation has not ruled
out of any candidate set. -/
def agrees (S : Nat) (sol : List Nat) (g : List Cell) : Prop :=
  ∀ i, inRange S i → cellAgrees (gget g i) (sol.getD i 0)

/-- The solver's grid invariant: right length; candidates in 1..NCOUNT; the
digit of every Filled cell has been eliminated from the candidate sets of its
Empty group neighbors; and Filled cells of one group carry distinct digits. -/
structure Inv (S : Nat) (g : List Cell) : Prop where
  len : g.length = NCOUNT S * NCOUNT S
  candsRange : ∀ i cs, gget g i = .empty cs → ∀ c ∈ cs, 1 ≤ c ∧ c ≤ NCOUNT S
  elim : ∀ i j, inRange S i → sameGroup S i j → j ≠ i →
    ∀ d cs, gget g i = .filled d → gget g j = .empty cs → d ∉ cs
  distinct : ∀ i j, inRange S i → sameGroup S i j → j ≠ i →
    ∀ d e, gget g i = .filled d → gget g j = .filled e → d ≠ e

/-- The elimination invariant localized to one cell: its digit has been
eliminated from every Empty group neighbor. -/
def ElimAt (S : Nat) (g : List Cell) (i : Nat) : Prop :=
  ∀ d, gget g i = .filled d → ∀ j, sameGroup S i j → j ≠ i →
    ∀ cs, gget g j = .empty cs → d ∉ cs

/-- The propagation loop of `Solver::read` over a list of cell indices. -/
def readFold (S : Nat) (l : List Nat) (g : List Cell) : List Cell :=
  l.foldl (fun h i => if (gget h i).isEmpty then h else updatePossibilities S h i) g

/-- Claim-side reading of the hidden-single test for one neighbor list: no
OTHER Empty cell of the list still has `c` among its candidates. -/
def noOtherIn (g : List Cell) (i c : Nat) (G : List Nat) : Prop :=
  ∀ j ∈ G, j ≠ i → (gget g j).isEmpty = true → c ∉ (gget g j).possibilities

instance (g : List Cell) (i c : Nat) (G : List Nat) : Decidable (noOtherIn g i c G) := by
  unfold noOtherIn; infer_instance

/-- Claim-side assignment condition of one sweep step: the candidate set is a
singleton (naked single), or candidate `c` fits nowhere else in the cell's
row, column or box group (hidden single). -/
def assignCond (S : Nat) (g : List Cell) (i c : Nat) (cs : List Nat) : Prop :=
  cs.length = 1 ∨ noOtherIn g i c (rowNb S (rowOf S i))
    ∨ noOtherIn g i c (colNb S (colOf S i)) ∨ noOtherIn g i c (boxNb S (boxOf S i))

instance (S : Nat) (g : List Cell) (i c : Nat) (cs : List Nat) :
    Decidable (assignCond S g i c cs) := by
  unfold assignCond; infer_instance

/-- One cell only loses candidates: if the new cell is Empty, the old one was
Empty and the new candidate list is a sublist of the old one. -/
def cellShrinks (c c2 : Cell) : Prop :=
  ∀ cs2, c2 = .empty cs2 → ∃ cs, c = .empty cs ∧ cs2.Sublist cs

/-- Pointwise candidate shrinking over the whole grid. -/
def gridShrinks (g g2 : List Cell) : Prop :=
  ∀ j, cellShrinks (gget g j) (gget g2 j)

/-- A 4x4 witness puzzle (SIZE = 2), fully given and legally filled. -/
def w1toks : List Nat :=
  [1, 2, 3, 4, 3, 4, 1, 2, 2, 1, 4, 3, 4, 3, 2, 1]

/-- A 4x4 grid that is a legal filling except that cell 0 was left Empty. -/
def w6grid : List Cell :=
  [Cell.empty [], Cell.filled 2, Cell.filled 3, Cell.filled 4,
   Cell.filled 3, Cell.filled 4, Cell.filled 1, Cell.filled 2,
   Cell.filled 2, Cell.filled 1, Cell.filled 4, Cell.filled 3,
   Cell.filled 4, Cell.filled 3, Cell.filled 2, Cell.filled 1]

lemma gget_nil (i : Nat) : gget [] i = .filled 0 := by
  cases i <;> rfl

lemma gget_cons_zero (c : Cell) (t : List Cell) : gget (c :: t) 0 = c := rfl

lemma gget_cons_succ (c : Cell) (t : List Cell) (i : Nat) :
    gget (c :: t) (i + 1) = gget t i := rfl

lemma gget_of_le (g : List Cell) (i : Nat) (h : g.length ≤ i) :
    gget g i = .filled 0 := by
  unfold gget
  rw [List.getD_eq_getElem?_getD, List.getElem?_eq_none (by omega)]
  rfl

lemma gget_eq_getElem (g : List Cell) (i : Nat) (h : i < g.length) :
    gget g i = g[i] := by
  unfold gget
  rw [List.getD_eq_getElem?_getD, List.getElem?_eq_getElem h]
  rfl

lemma gget_set_self (g : List Cell) (i : Nat) (c : Cell) (h : i < g.length) :
    gget (g.set i c) i = c := by
  unfold gget
  rw [List.getD_eq_getElem?_getD, List.getElem?_set_self h]
  rfl

lemma gget_set_of_le (g : List Cell) (i : Nat) (c : Cell) (h : g.length ≤ i) :
    gget (g.set i c) i = gget g i := by
  rw [List.set_eq_of_length_le h]

lemma gget_set_ne (g : List Cell) (i j : Nat) (c : Cell) (h : i ≠ j) :
    gget (g.set i c) j = gget g j := by
  unfold gget
  rw [List.getD_eq_getElem?_getD, List.getD_eq_getElem?_getD, List.getElem?_set_ne h]

lemma isEmpty_eq_false_iff (c : Cell) : c.isEmpty = false ↔ ∃ d, c = .filled d := by
  cases c <;> simp [Cell.isEmpty]

lemma isEmpty_eq_true_iff (c : Cell) : c.isEmpty = true ↔ ∃ cs, c = .empty cs := by
  cases c <;> simp [Cell.isEmpty]

lemma disable_filled (d n : Nat) : (Cell.filled d).disable n = .filled d := rfl

lemma disable_empty (cs : List Nat) (n : Nat) :
    (Cell.empty cs).disable n = .empty (cs.filter (fun m => m != n)) := rfl

lemma isEmpty_disable (c : Cell) (n : Nat) : (c.disable n).isEmpty = c.isEmpty := by
  cases c <;> rfl

lemma disable_disable (c : Cell) (n : Nat) : (c.disable n).disable n = c.disable n := by
  cases c with
  | filled d => rfl
  | empty cs => simp [Cell.disable, List.filter_filter]

lemma mem_disable_iff (cs : List Nat) (n m : Nat) :
    m ∈ ((Cell.empty cs).disable n).possibilities ↔ m ∈ cs ∧ m ≠ n := by
  simp [Cell.disable, Cell.possibilities, List.mem_filter]

lemma disable_eq_empty_iff (c : Cell) (n : Nat) (cs2 : List Nat) :
    c.disable n = .empty cs2 → ∃ cs, c = .empty cs ∧ cs2 = cs.filter (fun m => m != n) := by
  cases c with
  | filled d => intro h; exact absurd h (by simp [Cell.disable])
  | empty cs => intro h; exact ⟨cs, rfl, by simpa [Cell.disable] using h.symm⟩

lemma length_disableAll (g : List Cell) (n : Nat) (L : List Nat) :
    (disableAll g n L).length = g.length := by
  induction L generalizing g with
  | nil => rfl
  | cons i L ih => simpa [disableAll] using ih (g.set i ((gget g i).disable n))

lemma gget_disableAll (g : List Cell) (n : Nat) (L : List Nat) (j : Nat) :
    gget (disableAll g n L) j =
      if j ∈ L then (gget g j).disable n else gget g j := by
  induction L generalizing g with
  | nil => simp [disableAll]
  | cons i L ih =>
    have step : disableAll g n (i :: L) = disableAll (g.set i ((gget g i).disable n)) n L := rfl
    rw [step, ih]
    by_cases hij : i = j
    · subst hij
      by_cases hlen : i < g.length
      · rw [gget_set_self g i _ hlen]
        by_cases hmem : i ∈ L <;> simp [hmem, disable_disable]
      · rw [gget_set_of_le g i _ (by omega)]
        have h0 : gget g i = .filled 0 := gget_of_le g i (by omega)
        by_cases hmem : i ∈ L <;> simp [hmem, h0, disable_filled]
    · rw [gget_set_ne g i j _ hij]
      by_cases hmem : j ∈ L <;> simp [hmem, hij, Ne.symm hij]

lemma length_updatePossibilities (S : Nat) (g : List Cell) (i : Nat) :
    (updatePossibilities S g i).length = g.length := by
  simp [updatePossibilities, length_disableAll]

lemma gget_updatePossibilities (S : Nat) (g : List Cell) (i j : Nat) :
    gget (updatePossibilities S g i) j =
      if j ∈ rowNb S (rowOf S i) ∨ j ∈ colNb S (colOf S i) ∨ j ∈ boxNb S (boxOf S i)
      then (gget g j).disable ((gget g i).number) else gget g j := by
  unfold updatePossibilities
  rw [gget_disableAll, gget_disableAll, gget_disableAll]
  by_cases h1 : j ∈ rowNb S (rowOf S i) <;>
    by_cases h2 : j ∈ colNb S (colOf S i) <;>
      by_cases h3 : j ∈ boxNb S (boxOf S i) <;>
        simp [h1, h2, h3, disable_disable]

lemma isEmpty_gget_updatePossibilities (S : Nat) (g : List Cell) (i j : Nat) :
    (gget (updatePossibilities S g i) j).isEmpty = (gget g j).isEmpty := by
  rw [gget_updatePossibilities]
  split <;> simp [isEmpty_disable]

lemma gget_updatePossibilities_filled (S : Nat) (g : List Cell) (i j d : Nat)
    (h : gget g j = .filled d) : gget (updatePossibilities S g i) j = .filled d := by
  rw [gget_updatePossibilities]
  split <;> simp [h, disable_filled]

lemma emptyCount_congr (g g2 : List Cell) (hlen : g2.length = g.length)
    (h : ∀ j, (gget g2 j).isEmpty = (gget g j).isEmpty) :
    emptyCount g2 = emptyCount g := by
  induction g generalizing g2 with
  | nil =>
    have : g2 = [] := List.length_eq_zero.mp hlen
    simp [this]
  | cons c t ih =>
    match g2, hlen with
    | c2 :: t2, hlen =>
      have h0 : c2.isEmpty = c.isEmpty := h 0
      have ht : ∀ j, (gget t2 j).isEmpty = (gget t j).isEmpty := fun j => h (j + 1)
      have hl : t2.length = t.length := by simpa using hlen
      simp only [emptyCount, List.countP_cons] at *
      rw [ih t2 hl ht, h0]

lemma emptyCount_updatePossibilities (S : Nat) (g : List Cell) (i : Nat) :
    emptyCount (updatePossibilities S g i) = emptyCount g :=
  emptyCount_congr g _ (length_updatePossibilities S g i)
    (fun j => isEmpty_gget_updatePossibilities S g i j)

lemma emptyCount_set_filled (g : List Cell) (i n : Nat) (hlt : i < g.length)
    (he : (gget g i).isEmpty = true) :
    emptyCount (g.set i (.filled n)) + 1 = emptyCount g := by
  induction g generalizing i with
  | nil => simp at hlt
  | cons c t ih =>
    cases i with
    | zero =>
      have hc : c.isEmpty = true := he
      simp [emptyCount, List.countP_cons, hc, show (Cell.filled n).isEmpty = false from rfl]
    | succ i =>
      have h1 := ih i (by simpa using hlt) he
      simp only [List.set, emptyCount, List.countP_cons] at *
      omega

lemma emptyCount_branchGrid (S : Nat) (g : List Cell) (i n : Nat)
    (hlt : i < g.length) (he : (gget g i).isEmpty = true) :
    emptyCount (branchGrid S g i n) + 1 = emptyCount g := by
  unfold branchGrid
  rw [emptyCount_updatePossibilities]
  exact emptyCount_set_filled g i n hlt he

lemma length_branchGrid (S : Nat) (g : List Cell) (i n : Nat) :
    (branchGrid S g i n).length = g.length := by
  simp [branchGrid, length_updatePossibilities]

lemma restrictGo_nil (S : Nat) (g : List Cell) (res : Bool) :
    restrictGo S [] g res = (res, g) := rfl

lemma restrictGo_cons_skip (S i : Nat) (l : List Nat) (g : List Cell) (res : Bool)
    (h : ¬((gget g i).isEmpty = true ∧
      ((gget g i).possibilities.find? (restrictCond S g i (gget g i))).isSome)) :
    restrictGo S (i :: l) g res = restrictGo S l g res := by
  rw [restrictGo]
  by_cases he : (gget g i).isEmpty
  · simp only [he, if_true]
    cases hf : (gget g i).possibilities.find? (restrictCond S g i (gget g i)) with
    | none => rfl
    | some number => exact absurd ⟨he, by rw [hf]; rfl⟩ h
  · simp only [Bool.not_eq_true] at he
    simp only [he, Bool.false_eq_true, if_false]

lemma restrictGo_cons_assign (S i : Nat) (l : List Nat) (g : List Cell) (res : Bool)
    (number : Nat) (he : (gget g i).isEmpty = true)
    (hf : (gget g i).possibilities.find? (restrictCond S g i (gget g i)) = some number) :
    restrictGo S (i :: l) g res =
      restrictGo S l (updatePossibilities S (g.set i ((gget g i).setNumber number)) i) true := by
  rw [restrictGo]
  simp only [he, if_true, hf]

lemma restrictGo_length (S : Nat) (l : List Nat) (g : List Cell) (res : Bool) :
    (restrictGo S l g res).2.length = g.length := by
  induction l generalizing g res with
  | nil => rfl
  | cons i l ih =>
    by_cases h : (gget g i).isEmpty = true ∧
        ((gget g i).possibilities.find? (restrictCond S g i (gget g i))).isSome
    · obtain ⟨he, hs⟩ := h
      obtain ⟨number, hf⟩ := Option.isSome_iff_exists.mp hs
      rw [restrictGo_cons_assign S i l g res number he hf, ih]
      simp [length_updatePossibilities]
    · rw [restrictGo_cons_skip S i l g res h]
      exact ih g res

lemma restrictGo_flag_true (S : Nat) (l : List Nat) (g : List Cell) :
    (restrictGo S l g true).1 = true := by
  induction l generalizing g with
  | nil => rfl
  | cons i l ih =>
    by_cases h : (gget g i).isEmpty = true ∧
        ((gget g i).possibilities.find? (restrictCond S g i (gget g i))).isSome
    · obtain ⟨he, hs⟩ := h
      obtain ⟨number, hf⟩ := Option.isSome_iff_exists.mp hs
      rw [restrictGo_cons_assign S i l g true number he hf]
      exact ih _
    · rw [restrictGo_cons_skip S i l g true h]
      exact ih g

lemma restrictGo_false_eq (S : Nat) (l : List Nat) (g : List Cell) (res : Bool)
    (h : (restrictGo S l g res).1 = false) : (restrictGo S l g res).2 = g ∧ res = false := by
  induction l generalizing g res with
  | nil => exact ⟨rfl, h⟩
  | cons i l ih =>
    by_cases hc : (gget g i).isEmpty = true ∧
        ((gget g i).possibilities.find? (restrictCond S g i (gget g i))).isSome
    · obtain ⟨he, hs⟩ := hc
      obtain ⟨number, hf⟩ := Option.isSome_iff_exists.mp hs
      rw [restrictGo_cons_assign S i l g res number he hf] at h
      rw [restrictGo_flag_true] at h
      exact absurd h (by simp)
    · rw [restrictGo_cons_skip S i l g res hc] at h ⊢
      exact ih g res h

lemma restrictGo_filled_pres (S : Nat) (l : List Nat) (g : List Cell) (res : Bool)
    (j d : Nat) (h : gget g j = .filled d) :
    gget (restrictGo S l g res).2 j = .filled d := by
  induction l generalizing g res with
  | nil => exact h
  | cons i l ih =>
    by_cases hc : (gget g i).isEmpty = true ∧
        ((gget g i).possibilities.find? (restrictCond S g i (gget g i))).isSome
    · obtain ⟨he, hs⟩ := hc
      obtain ⟨number, hf⟩ := Option.isSome_iff_exists.mp hs
      rw [restrictGo_cons_assign S i l g res number he hf]
      apply ih
      apply gget_updatePossibilities_filled
      have hij : i ≠ j := by
        intro hc2; subst hc2; rw [h] at he; simp [Cell.isEmpty] at he
      rw [gget_set_ne g i j _ hij]
      exact h
    · rw [restrictGo_cons_skip S i l g res hc]
      exact ih g res h

lemma restrictGo_emptyCount_le (S : Nat) (l : List Nat) (g : List Cell) (res : Bool) :
    emptyCount (restrictGo S l g res).2 ≤ emptyCount g := by
  induction l generalizing g res with
  | nil => exact Nat.le_refl _
  | cons i l ih =>
    by_cases hc : (gget g i).isEmpty = true ∧
        ((gget g i).possibilities.find? (restrictCond S g i (gget g i))).isSome
    · obtain ⟨he, hs⟩ := hc
      obtain ⟨number, hf⟩ := Option.isSome_iff_exists.mp hs
      rw [restrictGo_cons_assign S i l g res number he hf]
      by_cases hlt : i < g.length
      · have h1 : emptyCount (updatePossibilities S (g.set i ((gget g i).setNumber number)) i)
            + 1 = emptyCount g := by
          rw [emptyCount_updatePossibilities]
          exact emptyCount_set_filled g i number hlt he
        have h2 := ih (updatePossibilities S (g.set i ((gget g i).setNumber number)) i) true
        omega
      · have hset : g.set i ((gget g i).setNumber number) = g :=
          List.set_eq_of_length_le (by omega)
        rw [hset]
        calc emptyCount (restrictGo S l (updatePossibilities S g i) true).2
            ≤ emptyCount (updatePossibilities S g i) := ih _ true
          _ = emptyCount g := emptyCount_updatePossibilities S g i
    · rw [restrictGo_cons_skip S i l g res hc]
      exact ih g res

lemma restrictGo_progress (S : Nat) (l : List Nat) (g : List Cell)
    (hl : ∀ x ∈ l, x < g.length)
    (h : (restrictGo S l g false).1 = true) :
    emptyCount (restrictGo S l g false).2 < emptyCount g := by
  induction l generalizing g with
  | nil => simp [restrictGo_nil] at h
  | cons i l ih =>
    by_cases hc : (gget g i).isEmpty = true ∧
        ((gget g i).possibilities.find? (restrictCond S g i (gget g i))).isSome
    · obtain ⟨he, hs⟩ := hc
      obtain ⟨number, hf⟩ := Option.isSome_iff_exists.mp hs
      rw [restrictGo_cons_assign S i l g false number he hf]
      have hlt : i < g.length := hl i (List.mem_cons_self i l)
      have h1 : emptyCount (updatePossibilities S (g.set i ((gget g i).setNumber number)) i)
          + 1 = emptyCount g := by
        rw [emptyCount_updatePossibilities]
        exact emptyCount_set_filled g i number hlt he
      have h2 := restrictGo_emptyCount_le S l
        (updatePossibilities S (g.set i ((gget g i).setNumber number)) i) true
      omega
    · rw [restrictGo_cons_skip S i l g false hc] at h ⊢
      exact ih g (fun x hx => hl x (List.mem_cons_of_mem i hx)) h

lemma restrict_length (S : Nat) (g : List Cell) : (restrict S g).2.length = g.length :=
  restrictGo_length S _ g false

lemma restrict_false_eq (S : Nat) (g : List Cell) (h : (restrict S g).1 = false) :
    (restrict S g).2 = g :=
  (restrictGo_false_eq S _ g false h).1

lemma restrict_progress (S : Nat) (g : List Cell) (hlen : g.length = NCOUNT S * NCOUNT S)
    (h : (restrict S g).1 = true) :
    emptyCount (restrict S g).2 < emptyCount g := by
  apply restrictGo_progress S _ g _ h
  intro x hx
  rw [hlen]
  exact List.mem_range.mp hx

lemma isFilled_iff (g : List Cell) :
    isFilled g = true ↔ ∀ c ∈ g, c.isEmpty = false := by
  simp [isFilled]

lemma isFilled_iff_emptyCount (g : List Cell) :
    isFilled g = true ↔ emptyCount g = 0 := by
  rw [isFilled_iff]
  unfold emptyCount
  rw [List.countP_eq_zero]
  constructor
  · intro h c hc; simp [h c hc]
  · intro h c hc; simpa using h c hc

lemma isSolvable_iff (g : List Cell) :
    isSolvable g = true ↔ ∀ c ∈ g, c.isInconsistent = false := by
  simp [isSolvable]

lemma isSolvable_of_isFilled (g : List Cell) (h : isFilled g = true) :
    isSolvable g = true := by
  rw [isFilled_iff] at h
  rw [isSolvable_iff]
  intro c hc
  obtain ⟨d, hd⟩ := (isEmpty_eq_false_iff c).mp (h c hc)
  subst hd
  rfl

lemma findIdx_of_not_filled (g : List Cell) (h : isFilled g = false) :
    ∃ i, List.findIdx? Cell.isEmpty g = some i ∧ i < g.length ∧
      (gget g i).isEmpty = true := by
  cases hf : List.findIdx? Cell.isEmpty g with
  | none =>
    exfalso
    have h2 := List.findIdx?_eq_none_iff.mp hf
    have h3 : isFilled g = true := by
      rw [isFilled_iff]
      intro c hc
      simpa using h2 c hc
    rw [h3] at h
    exact absurd h (by simp)
  | some i =>
    obtain ⟨hlt, hp, _⟩ := List.findIdx?_eq_some_iff_getElem.mp hf
    exact ⟨i, rfl, hlt, by rw [gget_eq_getElem g i hlt]; exact hp⟩

lemma solveFuel_zero (S : Nat) (g : List Cell) : solveFuel S 0 g = none := rfl

lemma solveFuel_succ (S f : Nat) (g : List Cell) :
    solveFuel S (f + 1) g =
      if isFilled g || !isSolvable g then some (isSolvable g, g)
      else
        match restrict S g with
        | (true, g1) => solveFuel S f g1
        | (false, g1) => assumeGo S (solveFuel S f) g1 := rfl

lemma solveFuel_filled (S f : Nat) (g : List Cell) (h : isFilled g = true) :
    solveFuel S (f + 1) g = some (true, g) := by
  rw [solveFuel_succ]
  simp [h, isSolvable_of_isFilled g h]

lemma solveFuel_unsolvable (S f : Nat) (g : List Cell) (h : isSolvable g = false) :
    solveFuel S (f + 1) g = some (false, g) := by
  rw [solveFuel_succ]
  simp [h]

lemma solveFuel_step (S f : Nat) (g : List Cell) (h1 : isFilled g = false)
    (h2 : isSolvable g = true) :
    solveFuel S (f + 1) g =
      if (restrict S g).1 then solveFuel S f (restrict S g).2
      else assumeGo S (solveFuel S f) (restrict S g).2 := by
  rw [solveFuel_succ]
  simp only [h1, h2, Bool.not_true, Bool.or_self, Bool.false_eq_true, if_false]
  rcases hr : restrict S g with ⟨b, g1⟩
  cases b <;> simp

lemma tryCandsGo_nil (S : Nat) (slv : List Cell → Option (Bool × List Cell))
    (g : List Cell) (i : Nat) : tryCandsGo S slv g i [] = some (false, g) := rfl

lemma tryCandsGo_cons (S : Nat) (slv : List Cell → Option (Bool × List Cell))
    (g : List Cell) (i n : Nat) (rest : List Nat) :
    tryCandsGo S slv g i (n :: rest) =
      match slv (branchGrid S g i n) with
      | none => none
      | some (true, g2) => some (true, g2)
      | some (false, _) => tryCandsGo S slv g i rest := rfl

lemma div_mul_add (S a r : Nat) (hS : 0 < S) (hr : r < S) : (a * S + r) / S = a := by
  rw [Nat.mul_comm a S, Nat.mul_add_div hS, Nat.div_eq_of_lt hr]
  omega

lemma mod_mul_add (S a r : Nat) (hr : r < S) : (a * S + r) % S = r := by
  rw [Nat.mul_comm a S, Nat.mul_add_mod, Nat.mod_eq_of_lt hr]

lemma div_mod_self_eq (i N : Nat) : i / N * N + i % N = i := by
  rw [Nat.mul_comm]; exact Nat.div_add_mod i N

lemma grid_lt (S a b : Nat) (ha : a < S) (hb : b < S) : a * S + b < S * S :=
  calc a * S + b < a * S + S := by omega
    _ = (a + 1) * S := by ring
    _ ≤ S * S := Nat.mul_le_mul_right S ha

lemma NCOUNT_pos_of_inRange (S i : Nat) (h : inRange S i) : 0 < S := by
  unfold inRange NCOUNT at h
  by_contra hc
  have : S = 0 := by omega
  subst this
  simp at h

lemma rowOf_lt (S i : Nat) (h : inRange S i) : rowOf S i < NCOUNT S := by
  have hS := NCOUNT_pos_of_inRange S i h
  have hN : 0 < NCOUNT S := by unfold NCOUNT; positivity
  unfold inRange at h
  unfold rowOf
  exact Nat.div_lt_iff_lt_mul hN |>.mpr (by rw [Nat.mul_comm] at h ⊢; exact h)

lemma colOf_lt (S i : Nat) (h : inRange S i) : colOf S i < NCOUNT S := by
  have hS := NCOUNT_pos_of_inRange S i h
  have hN : 0 < NCOUNT S := by unfold NCOUNT; positivity
  exact Nat.mod_lt i hN

lemma rowOf_colOf_eq (S i : Nat) : rowOf S i * NCOUNT S + colOf S i = i :=
  div_mod_self_eq i (NCOUNT S)

lemma boxOf_lt (S i : Nat) (h : inRange S i) : boxOf S i < NCOUNT S := by
  have hS := NCOUNT_pos_of_inRange S i h
  have h1 : rowOf S i / S < S := by
    have := rowOf_lt S i h
    unfold NCOUNT at this
    exact Nat.div_lt_iff_lt_mul hS |>.mpr (by rw [Nat.mul_comm] at this ⊢; exact this)
  have h2 : colOf S i / S < S := by
    have := colOf_lt S i h
    unfold NCOUNT at this
    exact Nat.div_lt_iff_lt_mul hS |>.mpr (by rw [Nat.mul_comm] at this ⊢; exact this)
  unfold boxOf NCOUNT
  exact grid_lt S _ _ h1 h2

lemma inRange_of_rowOf_colOf (S r c : Nat) (hr : r < NCOUNT S) (hc : c < NCOUNT S) :
    inRange S (r * NCOUNT S + c) := by
  unfold inRange
  exact grid_lt (NCOUNT S) r c hr hc

lemma mem_rowNb_iff (S r j : Nat) :
    j ∈ rowNb S r ↔ ∃ k, k < NCOUNT S ∧ r * NCOUNT S + k = j := by
  simp [rowNb, List.mem_map, List.mem_range]

lemma mem_colNb_iff (S c j : Nat) :
    j ∈ colNb S c ↔ ∃ k, k < NCOUNT S ∧ k * NCOUNT S + c = j := by
  simp [colNb, List.mem_map, List.mem_range]

lemma mem_boxNb_iff (S b j : Nat) :
    j ∈ boxNb S b ↔ ∃ k, k < NCOUNT S ∧
      b / S * S * NCOUNT S + b % S * S + k / S * NCOUNT S + k % S = j := by
  simp [boxNb, List.mem_map, List.mem_range]

lemma rowNb_self (S i : Nat) (h : inRange S i) : i ∈ rowNb S (rowOf S i) := by
  rw [mem_rowNb_iff]
  exact ⟨colOf S i, colOf_lt S i h, rowOf_colOf_eq S i⟩

lemma colNb_self (S i : Nat) (h : inRange S i) : i ∈ colNb S (colOf S i) := by
  rw [mem_colNb_iff]
  exact ⟨rowOf S i, rowOf_lt S i h, rowOf_colOf_eq S i⟩

lemma boxNb_self (S i : Nat) (h : inRange S i) : i ∈ boxNb S (boxOf S i) := by
  have hS := NCOUNT_pos_of_inRange S i h
  rw [mem_boxNb_iff]
  refine ⟨rowOf S i % S * S + colOf S i % S, ?_, ?_⟩
  · exact grid_lt S _ _ (Nat.mod_lt _ hS) (Nat.mod_lt _ hS)
  · have hcs : colOf S i / S < S := by
      have := colOf_lt S i h
      unfold NCOUNT at this
      exact Nat.div_lt_iff_lt_mul hS |>.mpr (by rw [Nat.mul_comm] at this ⊢; exact this)
    have hcm : colOf S i % S < S := Nat.mod_lt _ hS
    have h1 : boxOf S i / S = rowOf S i / S := by
      show (rowOf S i / S * S + colOf S i / S) / S = rowOf S i / S
      rw [div_mul_add S _ _ hS hcs]
    have h2 : boxOf S i % S = colOf S i / S := by
      show (rowOf S i / S * S + colOf S i / S) % S = colOf S i / S
      rw [mod_mul_add S _ _ hcs]
    have h3 : (rowOf S i % S * S + colOf S i % S) / S = rowOf S i % S := by
      rw [div_mul_add S _ _ hS hcm]
    have h4 : (rowOf S i % S * S + colOf S i % S) % S = colOf S i % S := by
      rw [mod_mul_add S _ _ hcm]
    rw [h1, h2, h3, h4]
    have hr := div_mod_self_eq (rowOf S i) S
    have hc := div_mod_self_eq (colOf S i) S
    have hi := rowOf_colOf_eq S i
    calc rowOf S i / S * S * NCOUNT S + colOf S i / S * S + rowOf S i % S * NCOUNT S
          + colOf S i % S
        = (rowOf S i / S * S + rowOf S i % S) * NCOUNT S
          + (colOf S i / S * S + colOf S i % S) := by ring
      _ = rowOf S i * NCOUNT S + colOf S i := by rw [hr, hc]
      _ = i := hi

lemma mem_rowNb_facts (S r j : Nat) (hr : r < NCOUNT S) (h : j ∈ rowNb S r) :
    rowOf S j = r ∧ inRange S j := by
  rw [mem_rowNb_iff] at h
  obtain ⟨k, hk, hj⟩ := h
  have hN : 0 < NCOUNT S := by omega
  subst hj
  constructor
  · unfold rowOf
    exact div_mul_add (NCOUNT S) r k hN hk
  · exact inRange_of_rowOf_colOf S r k hr hk

lemma mem_colNb_facts (S c j : Nat) (hc : c < NCOUNT S) (h : j ∈ colNb S c) :
    colOf S j = c ∧ inRange S j := by
  rw [mem_colNb_iff] at h
  obtain ⟨k, hk, hj⟩ := h
  subst hj
  constructor
  · unfold colOf
    exact mod_mul_add (NCOUNT S) k c hc
  · exact inRange_of_rowOf_colOf S k c hk hc

lemma mem_boxNb_facts (S b j : Nat) (hb : b < NCOUNT S) (h : j ∈ boxNb S b) :
    boxOf S j = b ∧ inRange S j := by
  rw [mem_boxNb_iff] at h
  obtain ⟨k, hk, hj⟩ := h
  have hS : 0 < S := by
    by_contra hc
    have : S = 0 := by omega
    subst this
    simp [NCOUNT] at hb
  have hbp : b / S < S := by
    have : b < S * S := hb
    exact Nat.div_lt_iff_lt_mul hS |>.mpr (by rw [Nat.mul_comm] at this ⊢; exact this)
  have hbq : b % S < S := Nat.mod_lt _ hS
  have hku : k / S < S := by
    have : k < S * S := hk
    exact Nat.div_lt_iff_lt_mul hS |>.mpr (by rw [Nat.mul_comm] at this ⊢; exact this)
  have hkv : k % S < S := Nat.mod_lt _ hS
  have hrow : rowOf S j = b / S * S + k / S := by
    unfold rowOf
    rw [← hj]
    have he : b / S * S * NCOUNT S + b % S * S + k / S * NCOUNT S + k % S
        = (b / S * S + k / S) * NCOUNT S + (b % S * S + k % S) := by ring
    rw [he]
    exact div_mul_add (NCOUNT S) _ _ (by unfold NCOUNT; positivity)
      (by unfold NCOUNT; exact grid_lt S _ _ hbq hkv)
  have hcol : colOf S j = b % S * S + k % S := by
    unfold colOf
    rw [← hj]
    have he : b / S * S * NCOUNT S + b % S * S + k / S * NCOUNT S + k % S
        = (b / S * S + k / S) * NCOUNT S + (b % S * S + k % S) := by ring
    rw [he]
    exact mod_mul_add (NCOUNT S) _ _ (by unfold NCOUNT; exact grid_lt S _ _ hbq hkv)
  constructor
  · unfold boxOf
    rw [show j / NCOUNT S = rowOf S j from rfl, show j % NCOUNT S = colOf S j from rfl,
      hrow, hcol, div_mul_add S _ _ hS hku, div_mul_add S _ _ hS hkv]
    exact div_mod_self_eq b S
  · have h1 : rowOf S j < NCOUNT S := by
      rw [hrow]; unfold NCOUNT; exact grid_lt S _ _ hbp hku
    have h2 : colOf S j < NCOUNT S := by
      rw [hcol]; unfold NCOUNT; exact grid_lt S _ _ hbq hkv
    have := inRange_of_rowOf_colOf S (rowOf S j) (colOf S j) h1 h2
    rwa [rowOf_colOf_eq S j] at this

lemma rowNb_nodup (S r : Nat) : (rowNb S r).Nodup := by
  unfold rowNb
  exact List.Nodup.map (fun a b hab => by omega) (List.nodup_range _)

lemma colNb_nodup (S c : Nat) : (colNb S c).Nodup := by
  unfold colNb
  by_cases hN : 0 < NCOUNT S
  · refine List.Nodup.map (fun a b hab => ?_) (List.nodup_range _)
    have : a * NCOUNT S = b * NCOUNT S := by omega
    exact Nat.eq_of_mul_eq_mul_right hN this
  · have : NCOUNT S = 0 := by omega
    simp [this]

lemma boxNb_nodup (S b : Nat) : (boxNb S b).Nodup := by
  unfold boxNb
  by_cases hS : 0 < S
  · refine List.Nodup.map_on (fun x hx y hy hxy => ?_) (List.nodup_range _)
    rw [List.mem_range] at hx hy
    have hxv : x % S < S := Nat.mod_lt _ hS
    have hyv : y % S < S := Nat.mod_lt _ hS
    have hSN : S ≤ NCOUNT S := by
      unfold NCOUNT
      calc S = S * 1 := by omega
        _ ≤ S * S := Nat.mul_le_mul_left S hS
    have heq : x / S * NCOUNT S + x % S = y / S * NCOUNT S + y % S := by omega
    have hdiv : x / S = y / S := by
      have h1 : (x / S * NCOUNT S + x % S) / NCOUNT S = x / S :=
        div_mul_add (NCOUNT S) _ _ (by omega) (by omega)
      have h2 : (y / S * NCOUNT S + y % S) / NCOUNT S = y / S :=
        div_mul_add (NCOUNT S) _ _ (by omega) (by omega)
      rw [← h1, ← h2, heq]
    have hmod : x % S = y % S := by
      rw [hdiv] at heq
      omega
    have hx2 := div_mod_self_eq x S
    have hy2 := div_mod_self_eq y S
    rw [hdiv, hmod] at hx2
    omega
  · have hS0 : S = 0 := by omega
    subst hS0
    simp [NCOUNT]

lemma length_rowNb (S r : Nat) : (rowNb S r).length = NCOUNT S := by
  simp [rowNb]

lemma length_colNb (S c : Nat) : (colNb S c).length = NCOUNT S := by
  simp [colNb]

lemma length_boxNb (S b : Nat) : (boxNb S b).length = NCOUNT S := by
  simp [boxNb]

lemma mem_groupList_iff (S : Nat) (G : List Nat) :
    G ∈ groupList S ↔ ∃ t < NCOUNT S,
      G = rowNb S t ∨ G = colNb S t ∨ G = boxNb S t := by
  unfold groupList
  simp only [List.mem_append, List.mem_map, List.mem_range]
  constructor
  · rintro ((⟨t, ht, rfl⟩ | ⟨t, ht, rfl⟩) | ⟨t, ht, rfl⟩)
    · exact ⟨t, ht, Or.inl rfl⟩
    · exact ⟨t, ht, Or.inr (Or.inl rfl)⟩
    · exact ⟨t, ht, Or.inr (Or.inr rfl)⟩
  · rintro ⟨t, ht, (rfl | rfl | rfl)⟩
    · exact Or.inl (Or.inl ⟨t, ht, rfl⟩)
    · exact Or.inl (Or.inr ⟨t, ht, rfl⟩)
    · exact Or.inr ⟨t, ht, rfl⟩

lemma groupList_facts (S : Nat) (G : List Nat) (h : G ∈ groupList S) :
    G.length = NCOUNT S ∧ G.Nodup ∧ ∀ j ∈ G, inRange S j := by
  rw [mem_groupList_iff] at h
  obtain ⟨t, ht, (rfl | rfl | rfl)⟩ := h
  · exact ⟨length_rowNb S t, rowNb_nodup S t,
      fun j hj => (mem_rowNb_facts S t j ht hj).2⟩
  · exact ⟨length_colNb S t, colNb_nodup S t,
      fun j hj => (mem_colNb_facts S t j ht hj).2⟩
  · exact ⟨length_boxNb S t, boxNb_nodup S t,
      fun j hj => (mem_boxNb_facts S t j ht hj).2⟩

lemma sameGroup_iff (S i j : Nat) :
    sameGroup S i j ↔ j ∈ rowNb S (rowOf S i) ∨ j ∈ colNb S (colOf S i)
      ∨ j ∈ boxNb S (boxOf S i) := by
  unfold sameGroup groupsOf
  simp

lemma sameGroup_self (S i : Nat) (h : inRange S i) : sameGroup S i i := by
  rw [sameGroup_iff]
  exact Or.inl (rowNb_self S i h)

lemma sameGroup_inRange (S i j : Nat) (hi : inRange S i) (h : sameGroup S i j) :
    inRange S j := by
  rw [sameGroup_iff] at h
  rcases h with h | h | h
  · exact (mem_rowNb_facts S _ j (rowOf_lt S i hi) h).2
  · exact (mem_colNb_facts S _ j (colOf_lt S i hi) h).2
  · exact (mem_boxNb_facts S _ j (boxOf_lt S i hi) h).2

lemma sameGroup_symm (S i j : Nat) (hi : inRange S i) (h : sameGroup S i j) :
    sameGroup S j i := by
  have hj := sameGroup_inRange S i j hi h
  rw [sameGroup_iff] at h
  rw [sameGroup_iff]
  rcases h with h | h | h
  · have := (mem_rowNb_facts S _ j (rowOf_lt S i hi) h).1
    exact Or.inl (by rw [this]; exact rowNb_self S i hi)
  · have := (mem_colNb_facts S _ j (colOf_lt S i hi) h).1
    exact Or.inr (Or.inl (by rw [this]; exact colNb_self S i hi))
  · have := (mem_boxNb_facts S _ j (boxOf_lt S i hi) h).1
    exact Or.inr (Or.inr (by rw [this]; exact boxNb_self S i hi))

lemma sameGroup_common (S i j : Nat) (hi : inRange S i) (h : sameGroup S i j) :
    ∃ G ∈ groupList S, i ∈ G ∧ j ∈ G := by
  rw [sameGroup_iff] at h
  rcases h with h | h | h
  · exact ⟨rowNb S (rowOf S i), (mem_groupList_iff S _).mpr
      ⟨rowOf S i, rowOf_lt S i hi, Or.inl rfl⟩, rowNb_self S i hi, h⟩
  · exact ⟨colNb S (colOf S i), (mem_groupList_iff S _).mpr
      ⟨colOf S i, colOf_lt S i hi, Or.inr (Or.inl rfl)⟩, colNb_self S i hi, h⟩
  · exact ⟨boxNb S (boxOf S i), (mem_groupList_iff S _).mpr
      ⟨boxOf S i, boxOf_lt S i hi, Or.inr (Or.inr rfl)⟩, boxNb_self S i hi, h⟩

lemma sameGroup_of_common (S i j : Nat) (G : List Nat) (hG : G ∈ groupList S)
    (hi : i ∈ G) (hj : j ∈ G) : sameGroup S i j := by
  rw [mem_groupList_iff] at hG
  obtain ⟨t, ht, (rfl | rfl | rfl)⟩ := hG
  · have h1 := (mem_rowNb_facts S t i ht hi).1
    rw [sameGroup_iff]
    exact Or.inl (by rw [h1]; exact hj)
  · have h1 := (mem_colNb_facts S t i ht hi).1
    rw [sameGroup_iff]
    exact Or.inr (Or.inl (by rw [h1]; exact hj))
  · have h1 := (mem_boxNb_facts S t i ht hi).1
    rw [sameGroup_iff]
    exact Or.inr (Or.inr (by rw [h1]; exact hj))

/-- Pigeonhole: a duplicate-free list of `n` values taken from `1..n` contains
every value of `1..n`. -/
lemma list_covers (L : List Nat) (n : Nat) (hlen : L.length = n) (hnd : L.Nodup)
    (hm : ∀ v ∈ L, 1 ≤ v ∧ v ≤ n) (c : Nat) (hc1 : 1 ≤ c) (hc2 : c ≤ n) : c ∈ L := by
  have hsub : L.toFinset ⊆ Finset.Icc 1 n := by
    intro v hv
    rw [List.mem_toFinset] at hv
    rw [Finset.mem_Icc]
    exact hm v hv
  have hcard : (Finset.Icc 1 n).card ≤ L.toFinset.card := by
    rw [List.toFinset_card_of_nodup hnd, hlen]
    simp
  have heq := Finset.eq_of_subset_of_card_le hsub hcard
  have : c ∈ L.toFinset := by
    rw [heq, Finset.mem_Icc]
    exact ⟨hc1, hc2⟩
  rwa [List.mem_toFinset] at this

lemma map_nodup_ne (L : List Nat) (f : Nat → Nat) (hn : (L.map f).Nodup)
    (hn2 : L.Nodup) (a b : Nat) (ha : a ∈ L) (hb : b ∈ L) (hne : a ≠ b) :
    f a ≠ f b := by
  rw [List.nodup_map_iff_inj_on hn2] at hn
  intro hc
  exact hne (hn a ha b hb hc)

lemma setNumber_eq (c : Cell) (n : Nat) : c.setNumber n = .filled n := rfl

lemma gget_branchGrid_self (S : Nat) (g : List Cell) (i n : Nat) (hlt : i < g.length) :
    gget (branchGrid S g i n) i = .filled n := by
  unfold branchGrid
  rw [setNumber_eq]
  exact gget_updatePossibilities_filled S _ i i n (gget_set_self g i _ hlt)

lemma gget_branchGrid_ne (S : Nat) (g : List Cell) (i n j : Nat) (hlt : i < g.length)
    (hij : j ≠ i) :
    gget (branchGrid S g i n) j =
      if sameGroup S i j then (gget g j).disable n else gget g j := by
  unfold branchGrid
  rw [setNumber_eq, gget_updatePossibilities, gget_set_self g i _ hlt,
    gget_set_ne g i j _ (Ne.symm hij)]
  have hnum : (Cell.filled n).number = n := rfl
  rw [hnum]
  by_cases hsg : sameGroup S i j
  · rw [if_pos ((sameGroup_iff S i j).mp hsg), if_pos hsg]
  · rw [if_neg (fun hc => hsg ((sameGroup_iff S i j).mpr hc)), if_neg hsg]

lemma disable_filled_inv (c : Cell) (n d : Nat) (h : c.disable n = .filled d) :
    c = .filled d := by
  cases c with
  | filled e => simpa [Cell.disable] using h
  | empty cs => simp [Cell.disable] at h

lemma Inv_branch (S : Nat) (g : List Cell) (i n : Nat) (hInv : Inv S g)
    (hi : inRange S i) (cs : List Nat) (hcell : gget g i = .empty cs) (hn : n ∈ cs) :
    Inv S (branchGrid S g i n) := by
  have hlt : i < g.length := by rw [hInv.len]; exact hi
  constructor
  · rw [length_branchGrid, hInv.len]
  · -- candsRange
    intro j cs2 hj c hc
    by_cases hij : j = i
    · subst hij
      rw [gget_branchGrid_self S g j n hlt] at hj
      exact absurd hj (by simp)
    · rw [gget_branchGrid_ne S g i n j hlt hij] at hj
      by_cases hsg : sameGroup S i j
      · rw [if_pos hsg] at hj
        obtain ⟨cs0, hcs0, hfil⟩ := disable_eq_empty_iff _ _ _ hj
        subst hfil
        rw [List.mem_filter] at hc
        exact hInv.candsRange j cs0 hcs0 c hc.1
      · rw [if_neg hsg] at hj
        exact hInv.candsRange j cs2 hj c hc
  · -- elim
    intro a b ha hsg hba d cs2 hfa hfb
    have hbi : b ≠ i := by
      intro hc; subst hc
      rw [gget_branchGrid_self S g b n hlt] at hfb
      simp at hfb
    by_cases hai : a = i
    · subst hai
      rw [gget_branchGrid_self S g a n hlt] at hfa
      have hdn : d = n := by injection hfa.symm
      subst hdn
      rw [gget_branchGrid_ne S g a d b hlt hbi, if_pos hsg] at hfb
      obtain ⟨cs0, hcs0, hfil⟩ := disable_eq_empty_iff _ _ _ hfb
      subst hfil
      intro hc
      rw [List.mem_filter] at hc
      simp at hc
    · rw [gget_branchGrid_ne S g i n a hlt hai] at hfa
      have hfa2 : gget g a = .filled d := by
        by_cases hsg2 : sameGroup S i a
        · rw [if_pos hsg2] at hfa
          exact disable_filled_inv _ _ _ hfa
        · rwa [if_neg hsg2] at hfa
      rw [gget_branchGrid_ne S g i n b hlt hbi] at hfb
      have hnotin := hInv.elim a b ha hsg hba d
      by_cases hsg2 : sameGroup S i b
      · rw [if_pos hsg2] at hfb
        obtain ⟨cs0, hcs0, hfil⟩ := disable_eq_empty_iff _ _ _ hfb
        subst hfil
        intro hc
        rw [List.mem_filter] at hc
        exact hnotin cs0 hfa2 hcs0 hc.1
      · rw [if_neg hsg2] at hfb
        exact hnotin cs2 hfa2 hfb
  · -- distinct
    intro a b ha hsg hba d e hfa hfb
    have hine : inRange S b := sameGroup_inRange S a b ha hsg
    by_cases hai : a = i
    · subst hai
      rw [gget_branchGrid_self S g a n hlt] at hfa
      have hdn : d = n := by injection hfa.symm
      rw [gget_branchGrid_ne S g a n b hlt hba] at hfb
      have hfb2 : gget g b = .filled e := by
        by_cases hsg2 : sameGroup S a b
        · rw [if_pos hsg2] at hfb
          exact disable_filled_inv _ _ _ hfb
        · rwa [if_neg hsg2] at hfb
      have hnotin := hInv.elim b a hine (sameGroup_symm S a b ha hsg)
        (fun hc => hba hc.symm) e cs hfb2 hcell
      intro hde
      exact hnotin (by rw [hde.symm.trans hdn]; exact hn)
    · by_cases hbi : b = i
      · subst hbi
        rw [gget_branchGrid_self S g b n hlt] at hfb
        have hen : e = n := by injection hfb.symm
        rw [gget_branchGrid_ne S g b n a hlt hai] at hfa
        have hfa2 : gget g a = .filled d := by
          by_cases hsg2 : sameGroup S b a
          · rw [if_pos hsg2] at hfa
            exact disable_filled_inv _ _ _ hfa
          · rwa [if_neg hsg2] at hfa
        have hnotin := hInv.elim a b ha hsg hba d cs hfa2 hcell
        intro hde
        exact hnotin (by rw [hde.trans hen]; exact hn)
      · rw [gget_branchGrid_ne S g i n a hlt hai] at hfa
        rw [gget_branchGrid_ne S g i n b hlt hbi] at hfb
        have hfa2 : gget g a = .filled d := by
          by_cases hsg2 : sameGroup S i a
          · rw [if_pos hsg2] at hfa
            exact disable_filled_inv _ _ _ hfa
          · rwa [if_neg hsg2] at hfa
        have hfb2 : gget g b = .filled e := by
          by_cases hsg2 : sameGroup S i b
          · rw [if_pos hsg2] at hfb
            exact disable_filled_inv _ _ _ hfb
          · rwa [if_neg hsg2] at hfb
        exact hInv.distinct a b ha hsg hba d e hfa2 hfb2

lemma Inv_restrictGo (S : Nat) (l : List Nat) (g : List Cell) (res : Bool)
    (hl : ∀ x ∈ l, inRange S x) (hInv : Inv S g) :
    Inv S (restrictGo S l g res).2 := by
  induction l generalizing g res with
  | nil => exact hInv
  | cons i l ih =>
    by_cases hc : (gget g i).isEmpty = true ∧
        ((gget g i).possibilities.find? (restrictCond S g i (gget g i))).isSome
    · obtain ⟨he, hs⟩ := hc
      obtain ⟨number, hf⟩ := Option.isSome_iff_exists.mp hs
      rw [restrictGo_cons_assign S i l g res number he hf]
      obtain ⟨cs, hcs⟩ := (isEmpty_eq_true_iff _).mp he
      have hmem : number ∈ cs := by
        have := List.mem_of_find?_eq_some hf
        rwa [hcs, Cell.possibilities] at this
      have hInv2 : Inv S (branchGrid S g i number) :=
        Inv_branch S g i number hInv (hl i (List.mem_cons_self i l)) cs hcs hmem
      exact ih (branchGrid S g i number) true (fun x hx => hl x (List.mem_cons_of_mem i hx))
        hInv2
    · rw [restrictGo_cons_skip S i l g res hc]
      exact ih g res (fun x hx => hl x (List.mem_cons_of_mem i hx)) hInv

lemma Inv_restrict (S : Nat) (g : List Cell) (hInv : Inv S g) :
    Inv S (restrict S g).2 :=
  Inv_restrictGo S _ g false (fun x hx => List.mem_range.mp hx) hInv

lemma fnCheck_eq_true_iff (g : List Cell) (c ind : Nat) (nbs : List Nat) :
    fnCheck g c ind nbs = true ↔
      ∀ nbi ∈ nbs, ¬(nbi ≠ ind ∧ (gget g nbi).isEmpty = true ∧
        (gget g nbi).isPossible c = true) := by
  unfold fnCheck
  rw [Bool.not_eq_true', List.any_eq_false]
  apply forall_congr'
  intro nbi
  apply imp_congr Iff.rfl
  apply not_congr
  simp only [Bool.and_eq_true, bne_iff_ne, and_assoc]

lemma isPossible_empty (cs : List Nat) (n : Nat) :
    (Cell.empty cs).isPossible n = true ↔ n ∈ cs := by
  simp [Cell.isPossible]

lemma isOnlyOne_empty (cs : List Nat) :
    (Cell.empty cs).isOnlyOne = (cs.length == 1) := rfl

lemma cellAgrees_filled (d v : Nat) : cellAgrees (.filled d) v ↔ v = d := Iff.rfl

lemma cellAgrees_empty (cs : List Nat) (v : Nat) :
    cellAgrees (.empty cs) v ↔ v ∈ cs := Iff.rfl

/-- Soundness of the hidden-single rule for one group: under the solver
invariant, if no other Empty cell of a group containing `i` lists candidate
`c`, then `c` is the digit the (compatible) solution assigns to `i`. -/
lemma group_sound (S : Nat) (g : List Cell) (sol : List Nat) (i c : Nat)
    (cs : List Nat) (hInv : Inv S g) (hag : agrees S sol g) (hval : validSol S sol)
    (hi : inRange S i) (hcell : gget g i = .empty cs) (hc : c ∈ cs)
    (G : List Nat) (hG : G ∈ groupList S) (hiG : i ∈ G)
    (hfc : fnCheck g c i G = true) : c = sol.getD i 0 := by
  have crange := hInv.candsRange i cs hcell c hc
  have hfacts := groupList_facts S G hG
  have hvnodup := (hval.2 G hG).1
  have hvmem : ∀ v ∈ G.map (fun j => sol.getD j 0), 1 ≤ v ∧ v ≤ NCOUNT S := by
    intro v hv
    rw [List.mem_map] at hv
    obtain ⟨j, hj, rfl⟩ := hv
    exact (hval.2 G hG).2 j hj
  have hcov : c ∈ G.map (fun j => sol.getD j 0) :=
    list_covers _ (NCOUNT S) (by rw [List.length_map, hfacts.1]) hvnodup hvmem
      c crange.1 crange.2
  rw [List.mem_map] at hcov
  obtain ⟨j, hjG, hsolj⟩ := hcov
  by_cases hij : j = i
  · rw [← hsolj, hij]
  · exfalso
    have hjr : inRange S j := hfacts.2.2 j hjG
    have haj := hag j hjr
    cases hcj : gget g j with
    | filled e =>
      rw [hcj] at haj
      rw [cellAgrees_filled] at haj
      have hec : e = c := by rw [← haj, hsolj]
      have hnotin := hInv.elim j i hjr (sameGroup_of_common S j i G hG hjG hiG)
        (Ne.symm hij) e cs hcj hcell
      rw [hec] at hnotin
      exact hnotin hc
    | empty csj =>
      rw [hcj] at haj
      rw [cellAgrees_empty] at haj
      have hcin : c ∈ csj := by rw [← hsolj]; exact haj
      have := (fnCheck_eq_true_iff g c i G).mp hfc j hjG
      exact this ⟨hij, by rw [hcj]; rfl, by rw [hcj]; exact (isPossible_empty csj c).mpr hcin⟩

/-- Soundness of the full assignment condition of `restrict`: a fired
candidate is the digit of any compatible solution. -/
lemma restrictCond_sound (S : Nat) (g : List Cell) (sol : List Nat) (i c : Nat)
    (cs : List Nat) (hInv : Inv S g) (hag : agrees S sol g) (hval : validSol S sol)
    (hi : inRange S i) (hcell : gget g i = .empty cs) (hc : c ∈ cs)
    (hcond : restrictCond S g i (gget g i) c = true) : c = sol.getD i 0 := by
  unfold restrictCond at hcond
  rw [hcell] at hcond
  simp only [Bool.or_eq_true] at hcond
  have hagi := hag i hi
  rw [hcell, cellAgrees_empty] at hagi
  rcases hcond with ((h1 | h2) | h3) | h4
  · -- naked single
    have hlen : cs.length = 1 := by
      rw [isOnlyOne_empty] at h1
      simpa using h1
    obtain ⟨x, hx⟩ := List.length_eq_one.mp hlen
    rw [hx] at hc hagi
    rw [List.mem_singleton] at hc hagi
    rw [hc, hagi]
  · exact group_sound S g sol i c cs hInv hag hval hi hcell hc _
      ((mem_groupList_iff S _).mpr ⟨rowOf S i, rowOf_lt S i hi, Or.inl rfl⟩)
      (rowNb_self S i hi) h2
  · exact group_sound S g sol i c cs hInv hag hval hi hcell hc _
      ((mem_groupList_iff S _).mpr ⟨colOf S i, colOf_lt S i hi, Or.inr (Or.inl rfl)⟩)
      (colNb_self S i hi) h3
  · exact group_sound S g sol i c cs hInv hag hval hi hcell hc _
      ((mem_groupList_iff S _).mpr ⟨boxOf S i, boxOf_lt S i hi, Or.inr (Or.inr rfl)⟩)
      (boxNb_self S i hi) h4

/-- The branch that assigns the solution's own digit keeps the grid compatible
with the solution. -/
lemma agrees_branch (S : Nat) (g : List Cell) (sol : List Nat) (i : Nat)
    (cs : List Nat) (hInv : Inv S g) (hag : agrees S sol g) (hval : validSol S sol)
    (hi : inRange S i) (hcell : gget g i = .empty cs) :
    agrees S sol (branchGrid S g i (sol.getD i 0)) := by
  have hlt : i < g.length := by rw [hInv.len]; exact hi
  intro j hj
  by_cases hij : j = i
  · subst hij
    rw [gget_branchGrid_self S g j _ hlt, cellAgrees_filled]
  · rw [gget_branchGrid_ne S g i _ j hlt hij]
    by_cases hsg : sameGroup S i j
    · rw [if_pos hsg]
      have haj := hag j hj
      cases hcj : gget g j with
      | filled d =>
        rw [hcj] at haj
        rw [disable_filled]
        exact haj
      | empty csj =>
        rw [hcj] at haj
        rw [disable_empty]
        rw [cellAgrees_empty] at haj ⊢
        rw [List.mem_filter]
        refine ⟨haj, ?_⟩
        obtain ⟨G, hG, hiG, hjG⟩ := sameGroup_common S i j hi hsg
        have hfacts := groupList_facts S G hG
        have hvn := (hval.2 G hG).1
        have hne := map_nodup_ne G (fun k => sol.getD k 0) hvn hfacts.2.1
          j i hjG hiG hij
        simpa [bne_iff_ne] using hne
    · rw [if_neg hsg]
      exact hag j hj

/-- One propagation sweep keeps both the solver invariant and compatibility
with any valid solution. -/
lemma InvAgrees_restrictGo (S : Nat) (sol : List Nat) (l : List Nat)
    (g : List Cell) (res : Bool) (hl : ∀ x ∈ l, inRange S x)
    (hval : validSol S sol) (hInv : Inv S g) (hag : agrees S sol g) :
    Inv S (restrictGo S l g res).2 ∧ agrees S sol (restrictGo S l g res).2 := by
  induction l generalizing g res with
  | nil => exact ⟨hInv, hag⟩
  | cons i l ih =>
    by_cases hc : (gget g i).isEmpty = true ∧
        ((gget g i).possibilities.find? (restrictCond S g i (gget g i))).isSome
    · obtain ⟨he, hs⟩ := hc
      obtain ⟨number, hf⟩ := Option.isSome_iff_exists.mp hs
      rw [restrictGo_cons_assign S i l g res number he hf]
      obtain ⟨cs, hcs⟩ := (isEmpty_eq_true_iff _).mp he
      have hmem : number ∈ cs := by
        have := List.mem_of_find?_eq_some hf
        rwa [hcs, Cell.possibilities] at this
      have hi : inRange S i := hl i (List.mem_cons_self i l)
      have hcond : restrictCond S g i (gget g i) number = true :=
        List.find?_some hf
      have hnum : number = sol.getD i 0 :=
        restrictCond_sound S g sol i number cs hInv hag hval hi hcs hmem hcond
      have hInv2 : Inv S (branchGrid S g i number) :=
        Inv_branch S g i number hInv hi cs hcs hmem
      have hag2 : agrees S sol (branchGrid S g i number) := by
        rw [hnum]
        exact agrees_branch S g sol i cs hInv hag hval hi hcs
      exact ih (branchGrid S g i number) true
        (fun x hx => hl x (List.mem_cons_of_mem i hx)) hInv2 hag2
    · rw [restrictGo_cons_skip S i l g res hc]
      exact ih g res (fun x hx => hl x (List.mem_cons_of_mem i hx)) hInv hag

lemma InvAgrees_restrict (S : Nat) (sol : List Nat) (g : List Cell)
    (hval : validSol S sol) (hInv : Inv S g) (hag : agrees S sol g) :
    Inv S (restrict S g).2 ∧ agrees S sol (restrict S g).2 :=
  InvAgrees_restrictGo S sol _ g false (fun x hx => List.mem_range.mp hx) hval hInv hag

lemma isSolvable_of_agrees (S : Nat) (g : List Cell) (sol : List Nat)
    (hlen : g.length = NCOUNT S * NCOUNT S) (hag : agrees S sol g) :
    isSolvable g = true := by
  rw [isSolvable_iff]
  intro c hc
  obtain ⟨j, hjlt, hje⟩ := List.mem_iff_getElem.mp hc
  have hr : inRange S j := by unfold inRange; omega
  have haj := hag j hr
  rw [gget_eq_getElem g j hjlt, hje] at haj
  cases c with
  | filled d => rfl
  | empty cs =>
    rw [cellAgrees_empty] at haj
    cases cs with
    | nil => exact absurd haj (List.not_mem_nil _)
    | cons a l => rfl

lemma allDistinct_iff (l : List Nat) : allDistinct l = true ↔ l.Nodup := by
  induction l with
  | nil => simp [allDistinct]
  | cons x xs ih => simp [allDistinct, List.nodup_cons, ih]

lemma isFilled_cell (g : List Cell) (hfill : isFilled g = true) (i : Nat)
    (hlt : i < g.length) : ∃ d, gget g i = .filled d := by
  rw [isFilled_iff] at hfill
  have hmem : g[i] ∈ g := List.getElem_mem hlt
  have := hfill _ hmem
  rw [gget_eq_getElem g i hlt]
  exact (isEmpty_eq_false_iff _).mp this

lemma testUnique_of (S : Nat) (g : List Cell) (G : List Nat) (hG : G ∈ groupList S)
    (hInv : Inv S g) (hfill : isFilled g = true) : testUnique g G = true := by
  unfold testUnique
  rw [allDistinct_iff]
  have hfacts := groupList_facts S G hG
  rw [List.nodup_map_iff_inj_on hfacts.2.1]
  intro a ha b hb hfab
  by_contra hne
  have hra := hfacts.2.2 a ha
  have hrb := hfacts.2.2 b hb
  obtain ⟨da, hda⟩ := isFilled_cell g hfill a (by rw [hInv.len]; exact hra)
  obtain ⟨db, hdb⟩ := isFilled_cell g hfill b (by rw [hInv.len]; exact hrb)
  have hsg := sameGroup_of_common S a b G hG ha hb
  have hdist := hInv.distinct a b hra hsg (fun hc => hne hc.symm) da db hda hdb
  apply hdist
  have hn : (gget g a).number = (gget g b).number := hfab
  rw [hda, hdb] at hn
  simpa [Cell.number] using hn

lemma isCorrect_of_filled_inv (S : Nat) (g : List Cell) (hInv : Inv S g)
    (hfill : isFilled g = true) : isCorrect S g = true := by
  unfold isCorrect
  rw [List.all_eq_true]
  intro t htm
  rw [List.mem_range] at htm
  have h1 := testUnique_of S g _ ((mem_groupList_iff S _).mpr ⟨t, htm, Or.inl rfl⟩)
    hInv hfill
  have h2 := testUnique_of S g _
    ((mem_groupList_iff S _).mpr ⟨t, htm, Or.inr (Or.inl rfl)⟩) hInv hfill
  have h3 := testUnique_of S g _
    ((mem_groupList_iff S _).mpr ⟨t, htm, Or.inr (Or.inr rfl)⟩) hInv hfill
  rw [h1, h2, h3]
  rfl

/-- The solver preserves the grid invariant, and a success result is always a
fully filled grid. -/
lemma solveFuel_inv (S : Nat) (f : Nat) : ∀ (g : List Cell) (b : Bool) (g2 : List Cell),
    Inv S g → solveFuel S f g = some (b, g2) →
    Inv S g2 ∧ (b = true → isFilled g2 = true) := by
  induction f with
  | zero => intro g b g2 _ h; rw [solveFuel_zero] at h; exact absurd h (by simp)
  | succ f ih =>
    intro g b g2 hInv h
    by_cases hfill : isFilled g = true
    · rw [solveFuel_filled S f g hfill] at h
      rw [Option.some.injEq, Prod.mk.injEq] at h
      obtain ⟨hb, hg⟩ := h
      subst hg
      exact ⟨hInv, fun _ => hfill⟩
    · by_cases hsolv : isSolvable g = true
      · rw [solveFuel_step S f g (by simpa using hfill) hsolv] at h
        cases hr : (restrict S g).1 with
        | true =>
          rw [hr] at h
          simp only [if_true] at h
          exact ih _ b g2 (Inv_restrict S g hInv) h
        | false =>
          rw [hr] at h
          simp only [Bool.false_eq_true, if_false] at h
          rw [restrict_false_eq S g hr] at h
          unfold assumeGo at h
          cases hidx : List.findIdx? Cell.isEmpty g with
          | none =>
            rw [hidx] at h
            rw [Option.some.injEq, Prod.mk.injEq] at h
            obtain ⟨hb, hg⟩ := h
            subst hg
            exact ⟨hInv, fun ht => absurd (hb.trans ht) (by simp)⟩
          | some i =>
            rw [hidx] at h
            obtain ⟨hlt, hp, _⟩ := List.findIdx?_eq_some_iff_getElem.mp hidx
            have hemp : (gget g i).isEmpty = true := by
              rw [gget_eq_getElem g i hlt]; exact hp
            obtain ⟨cs, hcs⟩ := (isEmpty_eq_true_iff _).mp hemp
            have hi : inRange S i := by
              have := hInv.len; unfold inRange; omega
            have htry : ∀ cs2, (∀ n ∈ cs2, n ∈ cs) →
                tryCandsGo S (solveFuel S f) g i cs2 = some (b, g2) →
                Inv S g2 ∧ (b = true → isFilled g2 = true) := by
              intro cs2
              induction cs2 with
              | nil =>
                intro _ hh
                rw [tryCandsGo_nil, Option.some.injEq, Prod.mk.injEq] at hh
                obtain ⟨hb, hg⟩ := hh
                subst hg
                exact ⟨hInv, fun ht => absurd (hb.trans ht) (by simp)⟩
              | cons n rest ihc =>
                intro hsub hh
                rw [tryCandsGo_cons] at hh
                cases hbr : solveFuel S f (branchGrid S g i n) with
                | none => rw [hbr] at hh; exact absurd hh (by simp)
                | some r =>
                  rcases r with ⟨b1, g3⟩
                  rw [hbr] at hh
                  have hInvBr : Inv S (branchGrid S g i n) :=
                    Inv_branch S g i n hInv hi cs hcs
                      (hsub n (List.mem_cons_self n rest))
                  have hres := ih _ b1 g3 hInvBr hbr
                  cases b1 with
                  | false =>
                    have hh2 : tryCandsGo S (solveFuel S f) g i rest = some (b, g2) := hh
                    exact ihc (fun m hm => hsub m (List.mem_cons_of_mem n hm)) hh2
                  | true =>
                    have hh2 : some (true, g3) = some (b, g2) := hh
                    rw [Option.some.injEq, Prod.mk.injEq] at hh2
                    obtain ⟨hb, hg⟩ := hh2
                    subst hg
                    exact ⟨hres.1, fun _ => hres.2 rfl⟩
            apply htry (gget g i).possibilities _ h
            intro n hn
            rwa [hcs, Cell.possibilities] at hn
      · rw [solveFuel_unsolvable S f g (by simpa using hsolv)] at h
        rw [Option.some.injEq, Prod.mk.injEq] at h
        obtain ⟨hb, hg⟩ := h
        subst hg
        exact ⟨hInv, fun ht => absurd (hb.trans ht) (by simp)⟩

/-- Sufficient fuel: `emptyCount g + 1` units of fuel always produce a result.
This is the termination argument of the mutual recursion: each loop iteration
with progress and each speculative assignment strictly decreases the number of
Empty cells. -/
lemma solveFuel_total (e : Nat) : ∀ (S : Nat) (g : List Cell) (f : Nat),
    g.length = NCOUNT S * NCOUNT S → emptyCount g ≤ e → e + 1 ≤ f →
    ∃ r, solveFuel S f g = some r := by
  induction e with
  | zero =>
    intro S g f hlen he hf
    have hfill : isFilled g = true := (isFilled_iff_emptyCount g).mpr (by omega)
    obtain ⟨f1, rfl⟩ : ∃ f1, f = f1 + 1 := ⟨f - 1, by omega⟩
    exact ⟨(true, g), solveFuel_filled S f1 g hfill⟩
  | succ e ih =>
    intro S g f hlen he hf
    obtain ⟨f1, rfl⟩ : ∃ f1, f = f1 + 1 := ⟨f - 1, by omega⟩
    by_cases hfill : isFilled g = true
    · exact ⟨(true, g), solveFuel_filled S f1 g hfill⟩
    by_cases hsolv : isSolvable g = true
    · rw [solveFuel_step S f1 g (by simpa using hfill) hsolv]
      cases hr : (restrict S g).1 with
      | true =>
        simp only [if_true]
        exact ih S (restrict S g).2 f1 (by rw [restrict_length, hlen])
          (by have := restrict_progress S g hlen hr; omega) (by omega)
      | false =>
        simp only [Bool.false_eq_true, if_false]
        have hg1 : (restrict S g).2 = g := restrict_false_eq S g hr
        rw [hg1]
        unfold assumeGo
        obtain ⟨i, hidx, hlt, hemp⟩ :=
          findIdx_of_not_filled g (by simpa using hfill)
        rw [hidx]
        have hcand : ∀ cs : List Nat, ∃ r, tryCandsGo S (solveFuel S f1) g i cs = some r := by
          intro cs
          induction cs with
          | nil => exact ⟨(false, g), rfl⟩
          | cons n rest ihc =>
            rw [tryCandsGo_cons]
            have hbr : emptyCount (branchGrid S g i n) ≤ e := by
              have := emptyCount_branchGrid S g i n hlt hemp
              omega
            obtain ⟨r1, hr1⟩ := ih S (branchGrid S g i n) f1
              (by rw [length_branchGrid, hlen]) hbr (by omega)
            rw [hr1]
            rcases r1 with ⟨b, g2⟩
            cases b with
            | true => exact ⟨(true, g2), rfl⟩
            | false => exact ihc
        exact hcand (gget g i).possibilities
    · exact ⟨(false, g), solveFuel_unsolvable S f1 g (by simpa using hsolv)⟩

/-- Completeness: on a grid compatible with a valid solution and satisfying
the solver invariant, `solve` succeeds (with enough fuel). The propagation
sweep only makes sound assignments, and the backtracking search eventually
tries the solution's own digit on the first Empty cell. -/
lemma solve_complete (e : Nat) : ∀ (S : Nat) (sol : List Nat) (g : List Cell) (f : Nat),
    validSol S sol → Inv S g → agrees S sol g → emptyCount g ≤ e → e + 1 ≤ f →
    ∃ g2, solveFuel S f g = some (true, g2) := by
  induction e with
  | zero =>
    intro S sol g f hval hInv hag he hf
    have hfill : isFilled g = true := (isFilled_iff_emptyCount g).mpr (by omega)
    obtain ⟨f1, rfl⟩ : ∃ f1, f = f1 + 1 := ⟨f - 1, by omega⟩
    exact ⟨g, solveFuel_filled S f1 g hfill⟩
  | succ e ih =>
    intro S sol g f hval hInv hag he hf
    obtain ⟨f1, rfl⟩ : ∃ f1, f = f1 + 1 := ⟨f - 1, by omega⟩
    by_cases hfill : isFilled g = true
    · exact ⟨g, solveFuel_filled S f1 g hfill⟩
    · have hsolv : isSolvable g = true := isSolvable_of_agrees S g sol hInv.len hag
      rw [solveFuel_step S f1 g (by simpa using hfill) hsolv]
      cases hr : (restrict S g).1 with
      | true =>
        simp only [if_true]
        obtain ⟨hInv2, hag2⟩ := InvAgrees_restrict S sol g hval hInv hag
        have hlt := restrict_progress S g hInv.len hr
        exact ih S sol (restrict S g).2 f1 hval hInv2 hag2 (by omega) (by omega)
      | false =>
        simp only [Bool.false_eq_true, if_false]
        rw [restrict_false_eq S g hr]
        unfold assumeGo
        obtain ⟨i, hidx, hlt, hemp⟩ := findIdx_of_not_filled g (by simpa using hfill)
        rw [hidx]
        obtain ⟨cs, hcs⟩ := (isEmpty_eq_true_iff _).mp hemp
        have hi : inRange S i := by
          have := hInv.len; unfold inRange; omega
        have hsolmem : sol.getD i 0 ∈ cs := by
          have := hag i hi
          rwa [hcs, cellAgrees_empty] at this
        have hposs : (gget g i).possibilities = cs := by rw [hcs]; rfl
        have htry : ∀ cs2, (∀ n ∈ cs2, n ∈ cs) → sol.getD i 0 ∈ cs2 →
            ∃ g2, tryCandsGo S (solveFuel S f1) g i cs2 = some (true, g2) := by
          intro cs2
          induction cs2 with
          | nil => intro _ hm; exact absurd hm (List.not_mem_nil _)
          | cons n rest ihc =>
            intro hsub hm
            rw [tryCandsGo_cons]
            have hnmem : n ∈ cs := hsub n (List.mem_cons_self n rest)
            have hInvBr : Inv S (branchGrid S g i n) :=
              Inv_branch S g i n hInv hi cs hcs hnmem
            have hebr : emptyCount (branchGrid S g i n) ≤ e := by
              have := emptyCount_branchGrid S g i n hlt hemp
              omega
            obtain ⟨⟨b1, g3⟩, hbr⟩ := solveFuel_total e S (branchGrid S g i n) f1
              (by rw [length_branchGrid, hInv.len]) hebr (by omega)
            rw [hbr]
            cases b1 with
            | true => exact ⟨g3, rfl⟩
            | false =>
              have hnne : n ≠ sol.getD i 0 := by
                intro hc
                subst hc
                have hagBr : agrees S sol (branchGrid S g i (sol.getD i 0)) :=
                  agrees_branch S g sol i cs hInv hag hval hi hcs
                obtain ⟨g4, hg4⟩ := ih S sol (branchGrid S g i (sol.getD i 0)) f1
                  hval hInvBr hagBr hebr (by omega)
                rw [hbr] at hg4
                exact absurd hg4 (by simp)
              have hrest : sol.getD i 0 ∈ rest := by
                cases List.mem_cons.mp hm with
                | inl h0 => exact absurd h0.symm hnne
                | inr h0 => exact h0
              exact ihc (fun m hm2 => hsub m (List.mem_cons_of_mem n hm2)) hrest
        show ∃ g2, tryCandsGo S (solveFuel S f1) g i (gget g i).possibilities
          = some (true, g2)
        rw [hposs]
        exact htry cs (fun n hn => hn) hsolmem

lemma readGrid_eq (S : Nat) (toks : List Nat) :
    readGrid S toks = readFold S (List.range (NCOUNT S * NCOUNT S))
      (toks.map (initialCell S)) := rfl

lemma readFold_nil (S : Nat) (g : List Cell) : readFold S [] g = g := rfl

lemma readFold_cons (S i : Nat) (l : List Nat) (g : List Cell) :
    readFold S (i :: l) g =
      readFold S l (if (gget g i).isEmpty then g else updatePossibilities S g i) := rfl

lemma length_readFold (S : Nat) (l : List Nat) (g : List Cell) :
    (readFold S l g).length = g.length := by
  induction l generalizing g with
  | nil => rfl
  | cons i l ih =>
    rw [readFold_cons]
    by_cases he : (gget g i).isEmpty
    · rw [if_pos he]; exact ih g
    · rw [if_neg he, ih]
      exact length_updatePossibilities S g i

lemma readFold_filled (S : Nat) (l : List Nat) (g : List Cell) (j d : Nat)
    (h : gget g j = .filled d) : gget (readFold S l g) j = .filled d := by
  induction l generalizing g with
  | nil => exact h
  | cons i l ih =>
    rw [readFold_cons]
    by_cases he : (gget g i).isEmpty
    · rw [if_pos he]; exact ih g h
    · rw [if_neg he]
      exact ih _ (gget_updatePossibilities_filled S g i j d h)

lemma gget_updatePossibilities_filled_inv (S : Nat) (g : List Cell) (x j d : Nat)
    (h : gget (updatePossibilities S g x) j = .filled d) : gget g j = .filled d := by
  rw [gget_updatePossibilities] at h
  by_cases hc : j ∈ rowNb S (rowOf S x) ∨ j ∈ colNb S (colOf S x) ∨ j ∈ boxNb S (boxOf S x)
  · rw [if_pos hc] at h
    exact disable_filled_inv _ _ _ h
  · rwa [if_neg hc] at h

lemma readFold_filled_inv (S : Nat) (l : List Nat) (g : List Cell) (j d : Nat)
    (h : gget (readFold S l g) j = .filled d) : gget g j = .filled d := by
  induction l generalizing g with
  | nil => exact h
  | cons i l ih =>
    rw [readFold_cons] at h
    by_cases he : (gget g i).isEmpty
    · rw [if_pos he] at h; exact ih g h
    · rw [if_neg he] at h
      exact gget_updatePossibilities_filled_inv S g i j d (ih _ h)

lemma gget_updatePossibilities_shrink (S : Nat) (g : List Cell) (x j : Nat)
    (cs2 : List Nat) (h : gget (updatePossibilities S g x) j = .empty cs2) :
    ∃ cs, gget g j = .empty cs ∧ ∀ c ∈ cs2, c ∈ cs := by
  rw [gget_updatePossibilities] at h
  by_cases hc : j ∈ rowNb S (rowOf S x) ∨ j ∈ colNb S (colOf S x) ∨ j ∈ boxNb S (boxOf S x)
  · rw [if_pos hc] at h
    obtain ⟨cs, hcs, hfil⟩ := disable_eq_empty_iff _ _ _ h
    exact ⟨cs, hcs, fun c hcm => by
      rw [hfil] at hcm
      exact (List.mem_filter.mp hcm).1⟩
  · rw [if_neg hc] at h
    exact ⟨cs2, h, fun c hcm => hcm⟩

lemma readFold_shrink (S : Nat) (l : List Nat) (g : List Cell) (j : Nat)
    (cs2 : List Nat) (h : gget (readFold S l g) j = .empty cs2) :
    ∃ cs, gget g j = .empty cs ∧ ∀ c ∈ cs2, c ∈ cs := by
  induction l generalizing g with
  | nil => exact ⟨cs2, h, fun c hcm => hcm⟩
  | cons i l ih =>
    rw [readFold_cons] at h
    by_cases he : (gget g i).isEmpty
    · rw [if_pos he] at h; exact ih g h
    · rw [if_neg he] at h
      obtain ⟨cs1, hcs1, hsub1⟩ := ih _ h
      obtain ⟨cs, hcs, hsub⟩ := gget_updatePossibilities_shrink S g i j cs1 hcs1
      exact ⟨cs, hcs, fun c hcm => hsub c (hsub1 c hcm)⟩

lemma elimAt_updatePossibilities (S : Nat) (g : List Cell) (x i : Nat)
    (h : ElimAt S g i) : ElimAt S (updatePossibilities S g x) i := by
  intro d hfi j hsg hji cs2 hej
  have hfi2 := gget_updatePossibilities_filled_inv S g x i d hfi
  obtain ⟨cs, hcs, hsub⟩ := gget_updatePossibilities_shrink S g x j cs2 hej
  intro hdm
  exact h d hfi2 j hsg hji cs hcs (hsub d hdm)

lemma readFold_pres_elimAt (S : Nat) (l : List Nat) (g : List Cell) (i : Nat)
    (h : ElimAt S g i) : ElimAt S (readFold S l g) i := by
  induction l generalizing g with
  | nil => exact h
  | cons x l ih =>
    rw [readFold_cons]
    by_cases he : (gget g x).isEmpty
    · rw [if_pos he]; exact ih g h
    · rw [if_neg he]
      exact ih _ (elimAt_updatePossibilities S g x i h)

lemma elimAt_updatePossibilities_self (S : Nat) (g : List Cell) (i e : Nat)
    (hfi : gget g i = .filled e) : ElimAt S (updatePossibilities S g i) i := by
  intro d hfd j hsg hji cs2 hej
  have : gget (updatePossibilities S g i) i = .filled e :=
    gget_updatePossibilities_filled S g i i e hfi
  rw [this] at hfd
  have hde : d = e := by injection hfd.symm
  rw [gget_updatePossibilities, if_pos ((sameGroup_iff S i j).mp hsg)] at hej
  obtain ⟨cs, hcs, hfil⟩ := disable_eq_empty_iff _ _ _ hej
  rw [hfil]
  intro hdm
  rw [List.mem_filter] at hdm
  have := hdm.2
  rw [hfi] at this
  simp only [Cell.number] at this
  rw [hde] at this
  simp at this

lemma readFold_elimAt (S : Nat) (l : List Nat) (g : List Cell) (i : Nat)
    (hmem : i ∈ l) : ElimAt S (readFold S l g) i := by
  induction l generalizing g with
  | nil => exact absurd hmem (List.not_mem_nil i)
  | cons x l ih =>
    rw [readFold_cons]
    by_cases hix : i = x
    · subst hix
      by_cases he : (gget g i).isEmpty
      · rw [if_pos he]
        by_cases hml : i ∈ l
        · exact ih g hml
        · -- the cell stays Empty through the whole fold, so ElimAt is vacuous
          intro d hfd j hsg hji cs2 hej
          have := readFold_filled_inv S l g i d hfd
          rw [this] at he
          simp [Cell.isEmpty] at he
      · rw [if_neg he]
        obtain ⟨e, hed⟩ := (isEmpty_eq_false_iff _).mp (by simpa using he)
        exact readFold_pres_elimAt S l _ i (elimAt_updatePossibilities_self S g i e hed)
    · have hml : i ∈ l := by
        cases List.mem_cons.mp hmem with
        | inl h0 => exact absurd h0 hix
        | inr h0 => exact h0
      by_cases he : (gget g x).isEmpty
      · rw [if_pos he]; exact ih g hml
      · rw [if_neg he]; exact ih _ hml

lemma agrees_updatePossibilities (S : Nat) (g : List Cell) (sol : List Nat) (x : Nat)
    (hval : validSol S sol) (hag : agrees S sol g) (hx : inRange S x) (e : Nat)
    (hfe : gget g x = .filled e) : agrees S sol (updatePossibilities S g x) := by
  intro j hj
  rw [gget_updatePossibilities]
  by_cases hc : j ∈ rowNb S (rowOf S x) ∨ j ∈ colNb S (colOf S x) ∨ j ∈ boxNb S (boxOf S x)
  · rw [if_pos hc]
    have hsg : sameGroup S x j := (sameGroup_iff S x j).mpr hc
    have haj := hag j hj
    rw [hfe]
    simp only [Cell.number]
    cases hcj : gget g j with
    | filled d =>
      rw [hcj] at haj
      rw [disable_filled]
      exact haj
    | empty csj =>
      rw [hcj] at haj
      rw [disable_empty, cellAgrees_empty]
      rw [cellAgrees_empty] at haj
      rw [List.mem_filter]
      refine ⟨haj, ?_⟩
      have hjx : j ≠ x := by
        intro hcx
        subst hcx
        rw [hfe] at hcj
        exact absurd hcj (by simp)
      have hsx : sol.getD x 0 = e := by
        have := hag x hx
        rwa [hfe, cellAgrees_filled] at this
      obtain ⟨G, hG, hxG, hjG⟩ := sameGroup_common S x j hx hsg
      have hfacts := groupList_facts S G hG
      have hne := map_nodup_ne G (fun k => sol.getD k 0) (hval.2 G hG).1
        hfacts.2.1 j x hjG hxG hjx
      simp only at hne
      rw [hsx] at hne
      simpa [bne_iff_ne] using hne
  · rw [if_neg hc]
    exact hag j hj

lemma agrees_readFold (S : Nat) (sol : List Nat) (l : List Nat) (g : List Cell)
    (hval : validSol S sol) (hl : ∀ x ∈ l, inRange S x) (hag : agrees S sol g) :
    agrees S sol (readFold S l g) := by
  induction l generalizing g with
  | nil => exact hag
  | cons x l ih =>
    rw [readFold_cons]
    by_cases he : (gget g x).isEmpty
    · rw [if_pos he]
      exact ih g (fun y hy => hl y (List.mem_cons_of_mem x hy)) hag
    · rw [if_neg he]
      obtain ⟨e, hed⟩ := (isEmpty_eq_false_iff _).mp (by simpa using he)
      exact ih _ (fun y hy => hl y (List.mem_cons_of_mem x hy))
        (agrees_updatePossibilities S g sol x hval hag
          (hl x (List.mem_cons_self x l)) e hed)

lemma gget_map_initialCell (S : Nat) (toks : List Nat) (i : Nat)
    (hlt : i < toks.length) :
    gget (toks.map (initialCell S)) i = initialCell S (toks.getD i 0) := by
  rw [gget_eq_getElem _ i (by simpa using hlt), List.getElem_map]
  congr 1
  rw [List.getD_eq_getElem?_getD, List.getElem?_eq_getElem hlt]
  rfl

lemma sol_bounds (S : Nat) (sol : List Nat) (hval : validSol S sol) (i : Nat)
    (hi : inRange S i) : 1 ≤ sol.getD i 0 ∧ sol.getD i 0 ≤ NCOUNT S := by
  have hG : rowNb S (rowOf S i) ∈ groupList S :=
    (mem_groupList_iff S _).mpr ⟨rowOf S i, rowOf_lt S i hi, Or.inl rfl⟩
  exact (hval.2 _ hG).2 i (rowNb_self S i hi)

lemma agrees_init (S : Nat) (toks sol : List Nat)
    (hlen : toks.length = NCOUNT S * NCOUNT S) (hval : validSol S sol)
    (hgiven : ∀ i, inRange S i → toks.getD i 0 ≠ 0 → sol.getD i 0 = toks.getD i 0) :
    agrees S sol (toks.map (initialCell S)) := by
  intro i hi
  have hilt : i < toks.length := by rw [hlen]; exact hi
  rw [gget_map_initialCell S toks i hilt]
  unfold initialCell
  by_cases h0 : toks.getD i 0 = 0
  · rw [if_pos h0, cellAgrees_empty]
    have hbound := sol_bounds S sol hval i hi
    rw [List.mem_range'_1]
    omega
  · rw [if_neg h0, cellAgrees_filled]
    exact hgiven i hi h0

lemma agrees_readGrid (S : Nat) (toks sol : List Nat)
    (hlen : toks.length = NCOUNT S * NCOUNT S) (hval : validSol S sol)
    (hgiven : ∀ i, inRange S i → toks.getD i 0 ≠ 0 → sol.getD i 0 = toks.getD i 0) :
    agrees S sol (readGrid S toks) := by
  rw [readGrid_eq]
  exact agrees_readFold S sol _ _ hval (fun x hx => List.mem_range.mp hx)
    (agrees_init S toks sol hlen hval hgiven)

lemma distinct_of_agrees (S : Nat) (g : List Cell) (sol : List Nat)
    (hag : agrees S sol g) (hval : validSol S sol) :
    ∀ i j, inRange S i → sameGroup S i j → j ≠ i →
      ∀ d e, gget g i = .filled d → gget g j = .filled e → d ≠ e := by
  intro i j hi hsg hji d e hfi hfj
  have hj := sameGroup_inRange S i j hi hsg
  have h1 := hag i hi
  rw [hfi, cellAgrees_filled] at h1
  have h2 := hag j hj
  rw [hfj, cellAgrees_filled] at h2
  obtain ⟨G, hG, hiG, hjG⟩ := sameGroup_common S i j hi hsg
  have hfacts := groupList_facts S G hG
  have hne := map_nodup_ne G (fun k => sol.getD k 0) (hval.2 G hG).1 hfacts.2.1
    i j hiG hjG (Ne.symm hji)
  simp only at hne
  rwa [h1, h2] at hne

lemma Inv_readGrid (S : Nat) (toks sol : List Nat)
    (hlen : toks.length = NCOUNT S * NCOUNT S) (hval : validSol S sol)
    (hgiven : ∀ i, inRange S i → toks.getD i 0 ≠ 0 → sol.getD i 0 = toks.getD i 0) :
    Inv S (readGrid S toks) := by
  have hag := agrees_readGrid S toks sol hlen hval hgiven
  constructor
  · rw [readGrid_eq, length_readFold, List.length_map, hlen]
  · intro i cs2 h c hc
    rw [readGrid_eq] at h
    obtain ⟨cs, hcs, hsub⟩ := readFold_shrink S _ _ i cs2 h
    by_cases hilt : i < toks.length
    · rw [gget_map_initialCell S toks i hilt] at hcs
      unfold initialCell at hcs
      by_cases h0 : toks.getD i 0 = 0
      · rw [if_pos h0] at hcs
        have hcin : c ∈ List.range' 1 (NCOUNT S) := by
          have : cs = List.range' 1 (NCOUNT S) := by injection hcs.symm
          rw [← this]
          exact hsub c hc
        rw [List.mem_range'_1] at hcin
        omega
      · rw [if_neg h0] at hcs
        exact absurd hcs (by simp)
    · rw [gget_of_le _ i (by simp; omega)] at hcs
      exact absurd hcs (by simp)
  · intro i j hi hsg hji d cs hfi hej
    rw [readGrid_eq] at hfi hej
    exact readFold_elimAt S _ _ i (List.mem_range.mpr hi) d hfi j hsg hji cs hej
  · exact distinct_of_agrees S _ sol hag hval

/-- A success result of the solver is always a fully filled grid, with no
assumption on the input grid. -/
lemma solveFuel_true_filled (S : Nat) (f : Nat) : ∀ (g g2 : List Cell),
    solveFuel S f g = some (true, g2) → isFilled g2 = true := by
  induction f with
  | zero => intro g g2 h; rw [solveFuel_zero] at h; exact absurd h (by simp)
  | succ f ih =>
    intro g g2 h
    by_cases hfill : isFilled g = true
    · rw [solveFuel_filled S f g hfill] at h
      rw [Option.some.injEq, Prod.mk.injEq] at h
      obtain ⟨_, hg⟩ := h
      subst hg
      exact hfill
    · by_cases hsolv : isSolvable g = true
      · rw [solveFuel_step S f g (by simpa using hfill) hsolv] at h
        cases hr : (restrict S g).1 with
        | true =>
          rw [hr] at h
          simp only [if_true] at h
          exact ih _ g2 h
        | false =>
          rw [hr] at h
          simp only [Bool.false_eq_true, if_false] at h
          unfold assumeGo at h
          cases hidx : List.findIdx? Cell.isEmpty (restrict S g).2 with
          | none =>
            rw [hidx] at h
            rw [Option.some.injEq, Prod.mk.injEq] at h
            exact absurd h.1 (by simp)
          | some i =>
            rw [hidx] at h
            have htry : ∀ cs2, tryCandsGo S (solveFuel S f) (restrict S g).2 i cs2
                = some (true, g2) → isFilled g2 = true := by
              intro cs2
              induction cs2 with
              | nil =>
                intro hh
                rw [tryCandsGo_nil, Option.some.injEq, Prod.mk.injEq] at hh
                exact absurd hh.1 (by simp)
              | cons n rest ihc =>
                intro hh
                rw [tryCandsGo_cons] at hh
                cases hbr : solveFuel S f (branchGrid S (restrict S g).2 i n) with
                | none => rw [hbr] at hh; exact absurd hh (by simp)
                | some r =>
                  rcases r with ⟨b1, g3⟩
                  rw [hbr] at hh
                  cases b1 with
                  | false =>
                    have hh2 : tryCandsGo S (solveFuel S f) (restrict S g).2 i rest
                        = some (true, g2) := hh
                    exact ihc hh2
                  | true =>
                    have hh2 : some (true, g3) = some (true, g2) := hh
                    rw [Option.some.injEq, Prod.mk.injEq] at hh2
                    rw [← hh2.2]
                    exact ih _ g3 hbr
            exact htry _ h
      · rw [solveFuel_unsolvable S f g (by simpa using hsolv)] at h
        rw [Option.some.injEq, Prod.mk.injEq] at h
        exact absurd h.1 (by simp)

lemma fnCheck_iff_noOther (g : List Cell) (c i : Nat) (G : List Nat) :
    fnCheck g c i G = true ↔ noOtherIn g i c G := by
  rw [fnCheck_eq_true_iff]
  unfold noOtherIn
  constructor
  · intro h j hj hne hemp hmem
    apply h j hj
    refine ⟨hne, hemp, ?_⟩
    obtain ⟨cs, hcs⟩ := (isEmpty_eq_true_iff _).mp hemp
    rw [hcs] at hmem ⊢
    exact (isPossible_empty cs c).mpr hmem
  · intro h j hj hcon
    apply h j hj hcon.1 hcon.2.1
    obtain ⟨cs, hcs⟩ := (isEmpty_eq_true_iff _).mp hcon.2.1
    have := hcon.2.2
    rw [hcs] at this ⊢
    exact (isPossible_empty cs c).mp this

lemma restrictCond_iff (S : Nat) (g : List Cell) (i : Nat) (cs : List Nat) (c : Nat) :
    restrictCond S g i (.empty cs) c = true ↔ assignCond S g i c cs := by
  unfold restrictCond assignCond
  simp only [Bool.or_eq_true, isOnlyOne_empty, fnCheck_iff_noOther, beq_iff_eq, or_assoc]

lemma restrictCond_eq_decide (S : Nat) (g : List Cell) (i : Nat) (cs : List Nat) :
    restrictCond S g i (.empty cs) = fun c => decide (assignCond S g i c cs) := by
  funext c
  by_cases hA : assignCond S g i c cs
  · rw [(restrictCond_iff S g i cs c).mpr hA]
    simp [hA]
  · have h1 : restrictCond S g i (.empty cs) c = false :=
      Bool.eq_false_iff.mpr (fun hc => hA ((restrictCond_iff S g i cs c).mp hc))
    rw [h1]
    simp [hA]

lemma gridShrinks_trans (g1 g2 g3 : List Cell) (h1 : gridShrinks g1 g2)
    (h2 : gridShrinks g2 g3) : gridShrinks g1 g3 := by
  intro j cs3 h3
  obtain ⟨cs2, hc2, hs2⟩ := h2 j cs3 h3
  obtain ⟨cs1, hc1, hs1⟩ := h1 j cs2 hc2
  exact ⟨cs1, hc1, hs2.trans hs1⟩

lemma cellShrinks_disable (c : Cell) (n : Nat) : cellShrinks c (c.disable n) := by
  intro cs2 h
  obtain ⟨cs, hcs, hfil⟩ := disable_eq_empty_iff c n cs2 h
  exact ⟨cs, hcs, by rw [hfil]; exact List.filter_sublist cs⟩

lemma gridShrinks_updatePossibilities (S : Nat) (g : List Cell) (i : Nat) :
    gridShrinks g (updatePossibilities S g i) := by
  intro j
  rw [gget_updatePossibilities]
  by_cases hc : j ∈ rowNb S (rowOf S i) ∨ j ∈ colNb S (colOf S i) ∨ j ∈ boxNb S (boxOf S i)
  · rw [if_pos hc]
    exact cellShrinks_disable _ _
  · rw [if_neg hc]
    intro cs2 h
    exact ⟨cs2, h, List.Sublist.refl cs2⟩

lemma gridShrinks_set_filled (g : List Cell) (i n : Nat) :
    gridShrinks g (g.set i (.filled n)) := by
  intro j cs2 h
  by_cases hij : i = j
  · subst hij
    by_cases hlt : i < g.length
    · rw [gget_set_self g i _ hlt] at h
      exact absurd h (by simp)
    · rw [gget_set_of_le g i _ (by omega)] at h
      exact ⟨cs2, h, List.Sublist.refl cs2⟩
  · rw [gget_set_ne g i j _ hij] at h
    exact ⟨cs2, h, List.Sublist.refl cs2⟩

lemma gridShrinks_restrictGo (S : Nat) (l : List Nat) (g : List Cell) (res : Bool) :
    gridShrinks g (restrictGo S l g res).2 := by
  induction l generalizing g res with
  | nil => intro j cs2 h; exact ⟨cs2, h, List.Sublist.refl cs2⟩
  | cons i l ih =>
    by_cases hc : (gget g i).isEmpty = true ∧
        ((gget g i).possibilities.find? (restrictCond S g i (gget g i))).isSome
    · obtain ⟨he, hs⟩ := hc
      obtain ⟨number, hf⟩ := Option.isSome_iff_exists.mp hs
      rw [restrictGo_cons_assign S i l g res number he hf]
      have h1 : gridShrinks g (g.set i ((gget g i).setNumber number)) := by
        rw [setNumber_eq]
        exact gridShrinks_set_filled g i number
      have h2 := gridShrinks_updatePossibilities S (g.set i ((gget g i).setNumber number)) i
      exact gridShrinks_trans _ _ _ (gridShrinks_trans _ _ _ h1 h2) (ih _ true)
    · rw [restrictGo_cons_skip S i l g res hc]
      exact ih g res

lemma eq_of_getD (l1 l2 : List Nat) (hlen : l1.length = l2.length)
    (h : ∀ i, i < l1.length → l1.getD i 0 = l2.getD i 0) : l1 = l2 := by
  apply List.ext_getElem hlen
  intro i h1 h2
  have hd := h i h1
  rw [List.getD_eq_getElem?_getD, List.getElem?_eq_getElem h1] at hd
  rw [List.getD_eq_getElem?_getD, List.getElem?_eq_getElem h2] at hd
  simpa using hd

/-- Claim C1: for every initial grid state (the grid `read` builds from a
token list, 0 marking an empty cell) that admits a unique legal completion,
`solve()` returns true and afterwards `isCorrect()` returns true on the
resulting grid. -/
theorem claim_C1_unique_completion_solved (S : Nat) (toks sol : List Nat)
    (hlen : toks.length = NCOUNT S * NCOUNT S) (hval : validSol S sol)
    (hgiven : ∀ i, inRange S i → toks.getD i 0 ≠ 0 → sol.getD i 0 = toks.getD i 0)
    (huniq : ∀ sol2, validSol S sol2 →
      (∀ i, inRange S i → toks.getD i 0 ≠ 0 → sol2.getD i 0 = toks.getD i 0) →
      sol2 = sol) :
    (solve S (readGrid S toks)).1 = true ∧
      isCorrect S (solve S (readGrid S toks)).2 = true := by
  have hag := agrees_readGrid S toks sol hlen hval hgiven
  have hInv := Inv_readGrid S toks sol hlen hval hgiven
  obtain ⟨g2, hsf⟩ := solve_complete (emptyCount (readGrid S toks)) S sol
    (readGrid S toks) (emptyCount (readGrid S toks) + 1) hval hInv hag
    (Nat.le_refl _) (Nat.le_refl _)
  have hres := solveFuel_inv S _ _ true g2 hInv hsf
  unfold solve
  rw [hsf]
  exact ⟨rfl, isCorrect_of_filled_inv S g2 hres.1 (hres.2 rfl)⟩

theorem claim_C1_witness :
    (solve 2 (readGrid 2 w1toks)).1 = true ∧
      isCorrect 2 (solve 2 (readGrid 2 w1toks)).2 = true := by
  apply claim_C1_unique_completion_solved 2 w1toks w1toks
  · decide
  · decide
  · exact fun i _ _ => rfl
  · intro sol2 hv2 hg2
    have hnz : ∀ i, i < 16 → w1toks.getD i 0 ≠ 0 := by decide
    apply eq_of_getD sol2 w1toks (by rw [hv2.1]; rfl)
    intro i hi
    have hir : inRange 2 i := by
      rw [hv2.1] at hi
      exact hi
    exact hg2 i hir (hnz i hir)

/-- Claim C2: the contract of `solve()`. A fully filled grid succeeds at once;
a grid with a contradictory Empty cell fails at once; otherwise one loop
iteration runs the propagation sweep, loops on progress, and delegates to the
backtracking search `assumeNumber` otherwise; and a success result is always a
fully filled grid, so no partial grid is ever reported as solved. -/
theorem claim_C2_solve_contract (S : Nat) :
    (∀ f g, isFilled g = true → solveFuel S (f + 1) g = some (true, g)) ∧
    (∀ f g, isSolvable g = false → solveFuel S (f + 1) g = some (false, g)) ∧
    (∀ f g, isFilled g = false → isSolvable g = true →
      solveFuel S (f + 1) g =
        if (restrict S g).1 then solveFuel S f (restrict S g).2
        else assumeFuel S (f + 1) (restrict S g).2) ∧
    (∀ f g g2, solveFuel S f g = some (true, g2) → isFilled g2 = true) := by
  refine ⟨?_, ?_, ?_, ?_⟩
  · exact fun f g h => solveFuel_filled S f g h
  · exact fun f g h => solveFuel_unsolvable S f g h
  · exact fun f g h1 h2 => solveFuel_step S f g h1 h2
  · exact fun f g g2 h => solveFuel_true_filled S f g g2 h

theorem claim_C2_witness :
    isFilled [Cell.filled 1] = true ∧
      solveFuel 1 1 [Cell.filled 1] = some (true, [Cell.filled 1]) :=
  ⟨by decide, (claim_C2_solve_contract 1).1 0 [Cell.filled 1] (by decide)⟩

/-- Claim C3: after a cell has become Filled with digit `d`, the incremental
propagation applies `eliminate d` exactly to the cells of its row, column and
box neighbor lists other than the cell itself, and leaves every other cell of
the grid untouched. -/
theorem claim_C3_update_scope (S : Nat) (g : List Cell) (i : Nat)
    (hfill : (gget g i).isEmpty = false) (j : Nat) :
    gget (updatePossibilities S g i) j =
      if j ≠ i ∧ (j ∈ rowNb S (rowOf S i) ∨ j ∈ colNb S (colOf S i)
        ∨ j ∈ boxNb S (boxOf S i))
      then (gget g j).disable ((gget g i).number) else gget g j := by
  rw [gget_updatePossibilities]
  by_cases hij : j = i
  · subst hij
    obtain ⟨d, hd⟩ := (isEmpty_eq_false_iff _).mp hfill
    rw [hd]
    by_cases hc : j ∈ rowNb S (rowOf S j) ∨ j ∈ colNb S (colOf S j) ∨ j ∈ boxNb S (boxOf S j)
    · rw [if_pos hc, if_neg (by simp), disable_filled]
    · rw [if_neg hc, if_neg (by simp)]
  · by_cases hc : j ∈ rowNb S (rowOf S i) ∨ j ∈ colNb S (colOf S i) ∨ j ∈ boxNb S (boxOf S i)
    · rw [if_pos hc, if_pos ⟨hij, hc⟩]
    · rw [if_neg hc, if_neg (fun hcon => hc hcon.2)]

theorem claim_C3_witness :
    gget (updatePossibilities 1 [Cell.filled 1] 0) 0 =
      if 0 ≠ 0 ∧ (0 ∈ rowNb 1 (rowOf 1 0) ∨ 0 ∈ colNb 1 (colOf 1 0)
        ∨ 0 ∈ boxNb 1 (boxOf 1 0))
      then (gget [Cell.filled 1] 0).disable ((gget [Cell.filled 1] 0).number)
      else gget [Cell.filled 1] 0 :=
  claim_C3_update_scope 1 [Cell.filled 1] 0 (by decide) 0

/-- Claim C4: during one sweep, a Filled cell is skipped; an Empty cell is
assigned the first candidate `c` that is a naked single (singleton candidate
set) or a hidden single (no other Empty cell of its row, column or box group
lists `c` at the moment of the check), with the incremental elimination
applied immediately and the sweep continuing over later cells with the
progress flag set; and the sweep reports true iff at least one assignment
occurred (iff the grid changed). -/
theorem claim_C4_sweep (S : Nat) :
    (∀ i l g res, (gget g i).isEmpty = false →
      restrictGo S (i :: l) g res = restrictGo S l g res) ∧
    (∀ i l g res cs, gget g i = .empty cs →
      restrictGo S (i :: l) g res =
        match cs.find? (fun c => decide (assignCond S g i c cs)) with
        | some c => restrictGo S l (updatePossibilities S (g.set i (.filled c)) i) true
        | none => restrictGo S l g res) ∧
    (∀ g, g.length = NCOUNT S * NCOUNT S →
      ((restrict S g).1 = true ↔ (restrict S g).2 ≠ g)) := by
  refine ⟨?_, ?_, ?_⟩
  · intro i l g res hf
    apply restrictGo_cons_skip
    intro hcon
    rw [hf] at hcon
    exact absurd hcon.1 (by simp)
  · intro i l g res cs hcs
    have hstep : restrictGo S (i :: l) g res =
        match cs.find? (restrictCond S g i (.empty cs)) with
        | some c => restrictGo S l (updatePossibilities S (g.set i (.filled c)) i) true
        | none => restrictGo S l g res := by
      rw [restrictGo, hcs]
      rfl
    rw [hstep, restrictCond_eq_decide S g i cs]
  · intro g hlen
    constructor
    · intro h hc
      have hprog := restrict_progress S g hlen h
      rw [hc] at hprog
      omega
    · intro hne
      by_contra hflag
      rw [Bool.not_eq_true] at hflag
      exact hne (restrict_false_eq S g hflag)

theorem claim_C4_witness :
    ((restrict 1 [Cell.empty [1]]).1 = true ↔
      (restrict 1 [Cell.empty [1]]).2 ≠ [Cell.empty [1]]) :=
  (claim_C4_sweep 1).2.2 [Cell.empty [1]] (by decide)

/-- Claim C5: the backtracking search takes a snapshot (the grid `g`) before
each speculative assignment; a failed branch continues from exactly that
snapshot, a successful branch returns its grid, and if every candidate's
branch fails the search returns failure with the grid restored to the
snapshot. -/
theorem claim_C5_snapshot (S : Nat) :
    (∀ f g i n rest g2, solveFuel S f (branchGrid S g i n) = some (false, g2) →
      tryCands S f g i (n :: rest) = tryCands S f g i rest) ∧
    (∀ f g i n rest g2, solveFuel S f (branchGrid S g i n) = some (true, g2) →
      tryCands S f g i (n :: rest) = some (true, g2)) ∧
    (∀ f g i cs, (∀ n ∈ cs, ∃ g2, solveFuel S f (branchGrid S g i n) = some (false, g2)) →
      tryCands S f g i cs = some (false, g)) := by
  refine ⟨?_, ?_, ?_⟩
  · intro f g i n rest g2 h
    unfold tryCands
    rw [tryCandsGo_cons, h]
  · intro f g i n rest g2 h
    unfold tryCands
    rw [tryCandsGo_cons, h]
  · intro f g i cs h
    unfold tryCands
    induction cs with
    | nil => exact tryCandsGo_nil S _ g i
    | cons n rest ih =>
      rw [tryCandsGo_cons]
      obtain ⟨g2, hg2⟩ := h n (List.mem_cons_self n rest)
      rw [hg2]
      exact ih (fun m hm => h m (List.mem_cons_of_mem n hm))

theorem claim_C5_witness :
    tryCands 1 0 [Cell.filled 1] 0 [] = some (false, [Cell.filled 1]) :=
  (claim_C5_snapshot 1).2.2 0 [Cell.filled 1] 0 [] (by simp)

/-- Counterexample to claim C6: a 4x4 grid that is a legal filling except for
one Empty cell passes `isCorrect()` (the Empty cell reads as digit 0, which is
distinct from the digits 1..4 of the other cells of each group), even though a
member cell of three groups is not Filled. -/
theorem claim_C6_counterexample :
    isCorrect 2 w6grid = true ∧ (gget w6grid 0).isEmpty = true := by
  constructor
  · decide
  · decide

/-- Claim C6 as amended: `isCorrect()` returns true iff in every row, column
and box group the NCOUNT member cells report pairwise distinct `number()`
values, where an Empty cell reports 0. Duplicate digits in a group make it
false, and so do two Empty cells in one group, but a single Empty cell per
group can pass. -/
theorem claim_C6_amended (S : Nat) (g : List Cell) :
    isCorrect S g = true ↔
      ∀ G ∈ groupList S, (G.map fun j => (gget g j).number).Nodup := by
  unfold isCorrect
  rw [List.all_eq_true]
  constructor
  · intro h G hG
    rw [mem_groupList_iff] at hG
    obtain ⟨t, ht, hc⟩ := hG
    have h1 := h t (List.mem_range.mpr ht)
    simp only [Bool.and_eq_true] at h1
    rcases hc with rfl | rfl | rfl
    · exact (allDistinct_iff _).mp h1.1.1
    · exact (allDistinct_iff _).mp h1.1.2
    · exact (allDistinct_iff _).mp h1.2
  · intro h t htm
    rw [List.mem_range] at htm
    have h1 := h _ ((mem_groupList_iff S _).mpr ⟨t, htm, Or.inl rfl⟩)
    have h2 := h _ ((mem_groupList_iff S _).mpr ⟨t, htm, Or.inr (Or.inl rfl)⟩)
    have h3 := h _ ((mem_groupList_iff S _).mpr ⟨t, htm, Or.inr (Or.inr rfl)⟩)
    unfold testUnique
    rw [Bool.and_eq_true, Bool.and_eq_true, allDistinct_iff, allDistinct_iff,
      allDistinct_iff]
    exact ⟨⟨h1, h2⟩, h3⟩

/-- Claim C7: a no-progress sweep leaves the grid unchanged, and running the
sweep again from that state changes nothing and reports no progress again:
the state is a fixed point of propagation. -/
theorem claim_C7_idempotent (S : Nat) (g : List Cell)
    (h : (restrict S g).1 = false) :
    (restrict S g).2 = g ∧ restrict S (restrict S g).2 = (false, g) := by
  have h2 := restrict_false_eq S g h
  refine ⟨h2, ?_⟩
  rw [h2]
  exact Prod.ext h h2

theorem claim_C7_witness :
    (restrict 1 [Cell.empty []]).2 = [Cell.empty []] ∧
      restrict 1 (restrict 1 [Cell.empty []]).2 = (false, [Cell.empty []]) :=
  claim_C7_idempotent 1 [Cell.empty []] (by decide)

/-- Claim C8: elimination monotonicity — both the incremental per-assignment
elimination and the full propagation sweep only ever shrink the candidate list
of any cell that stays Empty (as a sublist, so no digit is ever re-added). -/
theorem claim_C8_monotone (S : Nat) :
    (∀ g i, gridShrinks g (updatePossibilities S g i)) ∧
    (∀ g, gridShrinks g (restrict S g).2) := by
  constructor
  · exact fun g i => gridShrinks_updatePossibilities S g i
  · exact fun g => gridShrinks_restrictGo S _ g false

theorem claim_C8_witness :
    gridShrinks [Cell.empty [1, 2]] (updatePossibilities 1 [Cell.empty [1, 2]] 0) :=
  (claim_C8_monotone 1).1 [Cell.empty [1, 2]] 0

/-- Claim C9: termination — `emptyCount g + 1` units of fuel always suffice,
so the mutually recursive solve/backtracking procedure always returns, and
`solve` is the value it returns. -/
theorem claim_C9_termination (S : Nat) (g : List Cell)
    (hlen : g.length = NCOUNT S * NCOUNT S) :
    ∃ r, solveFuel S (emptyCount g + 1) g = some r ∧ solve S g = r := by
  obtain ⟨r, hr⟩ := solveFuel_total (emptyCount g) S g (emptyCount g + 1) hlen
    (Nat.le_refl _) (Nat.le_refl _)
  refine ⟨r, hr, ?_⟩
  unfold solve
  rw [hr]
  rfl

theorem claim_C9_witness :
    ∃ r, solveFuel 1 (emptyCount [Cell.filled 1] + 1) [Cell.filled 1] = some r ∧
      solve 1 [Cell.filled 1] = r :=
  claim_C9_termination 1 [Cell.filled 1] (by decide)

/-- Claim C10: whenever `assumeNumber` is reached from `solve` (the grid is
not filled and the sweep made no progress), the search for the first Empty
cell succeeds, so the subsequent accesses to that cell are within bounds. -/
theorem claim_C10_first_empty (S : Nat) (g : List Cell)
    (hnf : isFilled g = false) (hnp : (restrict S g).1 = false) :
    (List.findIdx? Cell.isEmpty (restrict S g).2).isSome = true := by
  rw [restrict_false_eq S g hnp]
  obtain ⟨i, hidx, _, _⟩ := findIdx_of_not_filled g hnf
  rw [hidx]
  rfl

theorem claim_C10_witness :
    (List.findIdx? Cell.isEmpty (restrict 1 [Cell.empty []]).2).isSome = true :=
  claim_C10_first_empty 1 [Cell.empty []] (by decide) (by decide)

end Sudoku
